import Mathlib

/-!
Verification of the dialog-graph layouter of BotFramework-Composer
(`questionLayouter` and its helpers, found at the tail of
`packages/client/public/min/vs/language/json/jsonWorker.js`).

The layouter itself is translated from the source.  Its collaborators
(`GraphCoord`, `Boundary`'s constructor, the interval constants and the
`QuestionType` string enum) are not part of the excerpt; they are modelled
from the specification, which treats them as black boxes assumed correct.
Coordinates are rationals, so that the JavaScript division
`ElementInterval.y / 2` is exact.  The in-place mutation of node `offset`
and `hidden` fields is made explicit: each layout function returns both the
`GraphLayout` and the post-state of the question/choice/branch nodes.
-/

/-- Boundary: width, height and the horizontal center line `axisX` (data model
section of the spec). -/
structure Boundary where
  width : ℚ
  height : ℚ
  axisX : ℚ
  deriving Repr, DecidableEq

/-- Modelled from the spec: the `Boundary(width, height)` constructor of the
missing `models/Boundary` module; `axisX` is "the horizontal center line". -/
def Boundary.mkWH (w h : ℚ) : Boundary := ⟨w, h, w / 2⟩

/-- A 2-D point, used for node offsets (top-left positions). -/
structure Pt where
  x : ℚ
  y : ℚ
  deriving Repr, DecidableEq

/-- The opaque `data` payload of a graph node: question type, choice id,
"go to choice" target and label.  Absent JavaScript fields are `none`. -/
structure NodeData where
  qtype : Option String := none
  choiceId : Option String := none
  gotoChoice : Option String := none
  label : Option String := none
  deriving Repr, DecidableEq

/-- GraphNode: a rectangular visual element with mutable `offset` and `hidden`,
a `boundary` and an opaque `data` payload. -/
structure GraphNode where
  id : String := ""
  data : NodeData := {}
  boundary : Boundary := ⟨0, 0, 0⟩
  offset : Pt := ⟨0, 0⟩
  hidden : Bool := false
  deriving Repr, DecidableEq

inductive EdgeDirection where
  | Up
  | Down
  | Left
  | Right
  deriving Repr, DecidableEq

structure EdgeOptions where
  label : Option String := none
  deriving Repr, DecidableEq

/-- Edge: a connector segment with id, direction, start point, length and
optional options (text label). -/
structure Edge where
  id : String
  direction : EdgeDirection
  x : ℚ
  y : ℚ
  length : ℚ
  options : Option EdgeOptions := none
  deriving Repr, DecidableEq

/-- The `nodeMap` of a layout: named references back to the input nodes. -/
structure NodeMap where
  questionNode : Option GraphNode := none
  choiceNodes : List GraphNode := []
  branchNodes : List GraphNode := []
  deriving Repr, DecidableEq

/-- GraphLayout: the output aggregate.  Its default value is the empty layout
produced by `new GraphLayout()`: zero-sized boundary, empty node map, no
edges, no nodes. -/
structure GraphLayout where
  boundary : Boundary := ⟨0, 0, 0⟩
  nodeMap : NodeMap := {}
  edges : List Edge := []
  nodes : List GraphNode := []
  deriving Repr, DecidableEq

/-- Modelled from the spec: the interval constants imported from the missing
`constants/ElementSizes` module.  The spec gives no numeric values, only that
they are fixed positive gaps; the theorems below refer to them symbolically. -/
def ElementIntervalY : ℚ := 60

/-- Modelled from the spec: fixed horizontal "branch interval" constant. -/
def BranchIntervalX : ℚ := 50

/-- Modelled from the spec: fixed vertical branch interval constant. -/
def BranchIntervalY : ℚ := 30

/-- A tag naming one of the caller's node objects, so that the offsets
assigned by coordinate composition can be applied back to the right node. -/
inductive NodeRef where
  | question
  | choice (i : Nat)
  | branch (i : Nat)
  deriving Repr, DecidableEq

/-- Modelled from the spec: a computed `GraphCoord` — a bounding box together
with the offsets (relative to the box's top-left corner) this composition
assigns to the nodes inside it. -/
structure Coord where
  boundary : Boundary
  nodes : List (NodeRef × Pt)
  deriving Repr, DecidableEq

def shiftNodes (dx dy : ℚ) (l : List (NodeRef × Pt)) : List (NodeRef × Pt) :=
  l.map fun rp => (rp.1, ⟨rp.2.x + dx, rp.2.y + dy⟩)

/-- A single graph node as a coordinate tree of its own. -/
def GraphNode.toCoord (n : GraphNode) (r : NodeRef) : Coord :=
  ⟨n.boundary, [(r, ⟨0, 0⟩)]⟩

/-- Modelled from the spec: `new GraphCoord(primary, [[dep, [DT.AxisX, 0],
[DT.BottomMargin, gap]]])` — the dependent is placed below the primary,
separated by `gap`, with both `axisX` center lines aligned; the result is the
union bounding box with offsets assigned to the whole subtree. -/
def Coord.below (p d : Coord) (gap : ℚ) : Coord :=
  let dx := p.boundary.axisX - d.boundary.axisX
  let left := min 0 dx
  let right := max p.boundary.width (dx + d.boundary.width)
  { boundary := ⟨right - left, p.boundary.height + gap + d.boundary.height,
      p.boundary.axisX - left⟩
    nodes := shiftNodes (-left) 0 p.nodes ++
      shiftNodes (dx - left) (p.boundary.height + gap) d.nodes }

def rowNodes (interval : ℚ) : ℚ → List Coord → List (NodeRef × Pt)
  | _, [] => []
  | x, c :: rest =>
    shiftNodes x 0 c.nodes ++ rowNodes interval (x + c.boundary.width + interval) rest

def rowWidth (interval : ℚ) : List Coord → ℚ
  | [] => 0
  | [c] => c.boundary.width
  | c :: rest => c.boundary.width + interval + rowWidth interval rest

def rowHeight : List Coord → ℚ
  | [] => 0
  | c :: rest => max c.boundary.height (rowHeight rest)

def rowLastAxis (interval : ℚ) : ℚ → List Coord → ℚ
  | _, [] => 0
  | x, [c] => x + c.boundary.axisX
  | x, c :: rest => rowLastAxis interval (x + c.boundary.width + interval) rest

/-- Modelled from the spec: `GraphCoord.topAlignWithInterval(items, interval,
centered)` — the items are laid out left to right with their tops aligned and
a fixed horizontal interval between them.  When not centered as a whole group
the result's axis is the midline between the first and last item's axes. -/
def Coord.topAlignWithInterval (items : List Coord) (interval : ℚ)
    (centered : Bool) : Coord :=
  let w := rowWidth interval items
  let axis :=
    if centered then w / 2
    else
      match items with
      | [] => 0
      | c :: _ => (c.boundary.axisX + rowLastAxis interval 0 items) / 2
  ⟨⟨w, rowHeight items, axis⟩, rowNodes interval 0 items⟩

/-- Look an assignment up by node tag (first hit wins; tags are unique by
construction). -/
def findPos : List (NodeRef × Pt) → NodeRef → Option Pt
  | [], _ => none
  | (r, p) :: rest, r' => if r = r' then some p else findPos rest r'

/-- Apply the offset assigned to tag `r` (if any) to node `n` — the explicit
form of the `offset` mutation performed by `moveCoordTo`. -/
def applyOne (asg : List (NodeRef × Pt)) (r : NodeRef) (n : GraphNode) :
    GraphNode :=
  match findPos asg r with
  | some p => { n with offset := p }
  | none => n

/-- Apply assigned offsets to an indexed list of nodes, tags built by `mk`
from the running index. -/
def applyIdx (asg : List (NodeRef × Pt)) (mk : Nat → NodeRef) :
    Nat → List GraphNode → List GraphNode
  | _, [] => []
  | i, n :: rest => applyOne asg (mk i) n :: applyIdx asg mk (i + 1) rest

/-- JavaScript falsiness of an optional string (`!gotoChoice`): absent or
empty. -/
def strFalsy : Option String → Bool
  | none => true
  | some s => s == ("")

/-- `branchNodes.findIndex((n) => n.data.choiceId === gotoChoice)`,
with the running index made explicit. -/
def findChoiceIdx (g : String) : Nat → List GraphNode → Option Nat
  | _, [] => none
  | i, b :: rest =>
    if b.data.choiceId == some (g) then some i else findChoiceIdx g (i + 1) rest

/-- The convergence-map entry contributed by one choice node: `none` when its
`gotoChoice` is falsy, points at the choice's own `choiceId`, or matches no
branch; otherwise the index of the first matching branch. -/
def convEntry (bs : List GraphNode) (c : GraphNode) : Option Nat :=
  match c.data.gotoChoice with
  | none => none
  | some g =>
    if g == ("") then none
    else if c.data.choiceId == some (g) then none
    else findChoiceIdx g 0 bs

def convMapGo (bs : List GraphNode) : Nat → List GraphNode → List (Nat × Nat)
  | _, [] => []
  | i, c :: rest =>
    match convEntry bs c with
    | some k => (i, k) :: convMapGo bs (i + 1) rest
    | none => convMapGo bs (i + 1) rest

/-- The convergence index map (choice index to case index), built by scanning
each choice's `gotoChoice` against the branches' `choiceId`s. -/
def convergenceMap (cs bs : List GraphNode) : List (Nat × Nat) :=
  convMapGo bs 0 cs

def lookupNat : List (Nat × Nat) → Nat → Option Nat
  | [], _ => none
  | (i, k) :: rest, j => if i = j then some k else lookupNat rest j

/-- `convergenceMap.get(iChoice) ?? iChoice` — the effective case index of a
choice. -/
def effCase (m : List (Nat × Nat)) (i : Nat) : Nat := (lookupNat m i).getD i

/-- The choice indices mapped to case index `k`, in ascending choice order
(the push order of the `connections` array). -/
def mappedChoices (cs bs : List GraphNode) (k : Nat) : List Nat :=
  (List.range cs.length).filter fun i => effCase (convergenceMap cs bs) i == k

/-- `connections.filter(Boolean)` — the `[caseIndex, choiceIndices]` pairs of
the sparse `connections` array, in ascending case-index order. -/
def reachableConnections (cs bs : List GraphNode) : List (Nat × List Nat) :=
  (List.range (max cs.length bs.length)).filterMap fun k =>
    let l := mappedChoices cs bs k
    if l.isEmpty then none else some (k, l)

def markHiddenGo (p : Nat → Bool) : Nat → List GraphNode → List GraphNode
  | _, [] => []
  | i, b :: rest =>
    (if p i then { b with hidden := true } else b) :: markHiddenGo p (i + 1) rest

/-- `if (!connections[i]) branchNodes[i].hidden = true` — branches with no
choice mapped to them are marked hidden. -/
def markHidden (cs bs : List GraphNode) : List GraphNode :=
  markHiddenGo (fun i => (mappedChoices cs bs i).isEmpty) 0 bs

/-- The `(choice, branch)` pair coordinates of the plain branching layout:
`branchNodes[i]` below `choiceNodes[i]`, axis-aligned, one element gap apart,
for `i` up to the shorter of the two lists. -/
def pairCoords : Nat → List GraphNode → List GraphNode → List Coord
  | i, c :: cr, b :: br =>
    Coord.below (c.toCoord (NodeRef.choice i)) (b.toCoord (NodeRef.branch i))
      ElementIntervalY :: pairCoords (i + 1) cr br
  | _, _, _ => []

/-- The composed content row of the plain branching layout, before the 200
unit height inflation. -/
def plainContentRow (cs bs : List GraphNode) : Coord :=
  Coord.topAlignWithInterval (pairCoords 0 cs bs) BranchIntervalX false

/-- One reachable convergence group: the group's choices in a top-aligned row
with the shared branch below, centered on the row's axis. -/
def groupCoord (cs bs : List GraphNode) (k : Nat) (idxs : List Nat) : Coord :=
  let choiceCoords := idxs.map fun i =>
    GraphNode.toCoord (cs.getD i {}) (NodeRef.choice i)
  let row := Coord.topAlignWithInterval choiceCoords BranchIntervalX false
  Coord.below row ((bs.getD k {}).toCoord (NodeRef.branch k)) ElementIntervalY

/-- The composed content row of the convergence-aware layout. -/
def convContentRow (cs bs : List GraphNode) : Coord :=
  Coord.topAlignWithInterval
    ((reachableConnections cs bs).map fun p => groupCoord cs bs p.1 p.2)
    BranchIntervalX false

def concatMapL (f : α → List β) : List α → List β
  | [] => []
  | a :: l => f a ++ concatMapL f l

/-- `calculateEdges(containerBoundary, questionNode, branchNodes)`: the down
edge from the question, one labelled down edge per branch from the baseline,
and — when there is more than one branch — the horizontal baseline edge. -/
def calculateEdges (containerBoundary : Boundary) (questionNode : GraphNode)
    (branchNodes : List GraphNode) : List Edge :=
  let e1 : Edge :=
    { id := ("edge/") ++ questionNode.id ++ ("/switch/condition->switch")
      direction := EdgeDirection.Down
      x := containerBoundary.axisX
      y := questionNode.offset.y + questionNode.boundary.height
      length := BranchIntervalY }
  let baselineY :=
    questionNode.offset.y + questionNode.boundary.height + BranchIntervalY
  let branchEdges := branchNodes.map fun b =>
    { id := ("edge/") ++ questionNode.id ++ ("/case/baseline->") ++ b.id
      direction := EdgeDirection.Down
      x := b.offset.x + b.boundary.axisX
      y := baselineY
      length := b.offset.y - baselineY
      options := some ⟨b.data.label⟩ : Edge }
  let baseline :=
    if 1 < branchNodes.length then
      let fb := branchNodes.headD {}
      let lb := branchNodes.getLast?.getD {}
      [{ id := ("edge/") ++ questionNode.id ++ ("/baseline")
         direction := EdgeDirection.Right
         x := fb.offset.x + fb.boundary.axisX
         y := baselineY
         length :=
           lb.offset.x + lb.boundary.axisX - (fb.offset.x + fb.boundary.axisX)
         : Edge }]
    else []
  e1 :: branchEdges ++ baseline

/-- The two down edges emitted for one choice of a convergence group: from the
baseline down to the choice's top center, and from the choice's bottom center
downward — half an element gap when the group is converged, a full one
otherwise. -/
def convChoiceEdges (cs : List GraphNode) (baselineY : ℚ) (converged : Bool)
    (i : Nat) : List Edge :=
  let c := cs.getD i {}
  [{ id := ("edge/") ++ c.id ++ ("/baseline->choice")
     direction := EdgeDirection.Down
     x := c.offset.x + c.boundary.axisX
     y := baselineY
     length := BranchIntervalY },
   { id := ("edge/") ++ c.id ++ ("/choice->mid-baseline")
     direction := EdgeDirection.Down
     x := c.offset.x + c.boundary.axisX
     y := c.offset.y + c.boundary.height
     length := if converged then ElementIntervalY / 2 else ElementIntervalY }]

/-- The edges emitted while visiting one reachable connection group: the two
down edges per choice, then — only when the group is converged — the up edge
into the shared branch and the horizontal mid-baseline across the group. -/
def convGroupEdges (cs bs : List GraphNode) (baselineY : ℚ)
    (p : Nat × List Nat) : List Edge :=
  let converged := decide (1 < p.2.length)
  concatMapL (convChoiceEdges cs baselineY converged) p.2 ++
    (if converged then
      let b := bs.getD p.1 {}
      let cFirst := cs.getD (p.2.headD 0) {}
      let cLast := cs.getD (p.2.getLast?.getD 0) {}
      [{ id := ("edge/") ++ b.id ++ ("/mid-baseline->case")
         direction := EdgeDirection.Up
         x := b.offset.x + b.boundary.axisX
         y := b.offset.y
         length := BranchIntervalY : Edge },
       { id := ("edge/") ++ b.id ++ ("/converged/mid-baseline")
         direction := EdgeDirection.Right
         x := cFirst.offset.x + cFirst.boundary.axisX
         y := cFirst.offset.y + cFirst.boundary.height + ElementIntervalY / 2
         length := cLast.offset.x + cLast.boundary.axisX -
           (cFirst.offset.x + cFirst.boundary.axisX) : Edge }]
    else [])

/-- The edges of the convergence-aware layout, in emission order: the question
down edge, the full baseline, then per reachable group the per-choice down
edges followed (for converged groups) by the up edge and the mid-baseline. -/
def convEdges (q : GraphNode) (cs bs : List GraphNode)
    (reach : List (Nat × List Nat)) : List Edge :=
  let e1 : Edge :=
    { id := ("edge/") ++ q.id ++ ("/q->baseline")
      direction := EdgeDirection.Down
      x := q.offset.x + q.boundary.axisX
      y := q.offset.y + q.boundary.height
      length := BranchIntervalY }
  let baselineY := q.offset.y + q.boundary.height + BranchIntervalY
  let firstChoice := cs.headD {}
  let lastChoice := cs.getLast?.getD {}
  let e2 : Edge :=
    { id := ("edge/") ++ q.id ++ ("/baseline")
      direction := EdgeDirection.Right
      x := firstChoice.offset.x + firstChoice.boundary.axisX
      y := baselineY
      length := lastChoice.offset.x + lastChoice.boundary.axisX -
        (firstChoice.offset.x + firstChoice.boundary.axisX) }
  e1 :: e2 :: concatMapL (convGroupEdges cs bs baselineY) reach

/-- The result of a layout call: the returned `GraphLayout` together with the
post-state of the caller-owned node objects (offset/hidden mutation made
explicit). -/
structure LayoutResult where
  layout : GraphLayout
  question : Option GraphNode
  choices : List GraphNode
  branches : List GraphNode
  deriving Repr, DecidableEq

/-- The fully composed coordinate tree of the plain branching layout: the
content row with its height inflated by the 200 unit hack, hung two branch
intervals below the question node and moved to the origin. -/
def plainRootCoord (questionNode : GraphNode) (cs bs : List GraphNode) :
    Coord :=
  let content0 := plainContentRow cs bs
  Coord.below (questionNode.toCoord NodeRef.question)
    { content0 with boundary :=
        { content0.boundary with height := content0.boundary.height + 200 } }
    (BranchIntervalY * 2)

/-- The fully composed coordinate tree of the convergence-aware layout. -/
def convRootCoord (questionNode : GraphNode) (cs bs : List GraphNode) :
    Coord :=
  Coord.below (questionNode.toCoord NodeRef.question) (convContentRow cs bs)
    (BranchIntervalY * 2)

/-- `questionLayouterBranching` (state-passing form): pair choices with
branches, compose the row, inflate its height by the 200 unit hack, hang it
two branch intervals below the question, move to the origin, and compute the
edges. -/
def questionLayouterBranchingSt (questionNode : GraphNode)
    (choiceNodes branchNodes : List GraphNode) : LayoutResult :=
  if branchNodes.isEmpty then
    ⟨{}, some questionNode, choiceNodes, branchNodes⟩
  else
    let questionCoord := plainRootCoord questionNode choiceNodes branchNodes
    let asg := questionCoord.nodes
    let q := applyOne asg NodeRef.question questionNode
    let cs := applyIdx asg NodeRef.choice 0 choiceNodes
    let bs := applyIdx asg NodeRef.branch 0 branchNodes
    let edges := calculateEdges questionCoord.boundary q bs
    ⟨⟨questionCoord.boundary, ⟨some q, cs, bs⟩, edges, []⟩, some q, cs, bs⟩

/-- `questionLayouterBranchingWithConvergence` (state-passing form). -/
def questionLayouterBranchingWithConvergenceSt (questionNode : GraphNode)
    (choiceNodes branchNodes : List GraphNode) : LayoutResult :=
  if branchNodes.isEmpty then
    ⟨{}, some questionNode, choiceNodes, branchNodes⟩
  else if (convergenceMap choiceNodes branchNodes).isEmpty then
    questionLayouterBranchingSt questionNode choiceNodes branchNodes
  else
    let reach := reachableConnections choiceNodes branchNodes
    let marked := markHidden choiceNodes branchNodes
    let rootCoord := convRootCoord questionNode choiceNodes branchNodes
    let asg := rootCoord.nodes
    let q := applyOne asg NodeRef.question questionNode
    let cs := applyIdx asg NodeRef.choice 0 choiceNodes
    let bs := applyIdx asg NodeRef.branch 0 marked
    let edges := convEdges q cs bs reach
    ⟨⟨rootCoord.boundary, ⟨some q, cs, bs⟩, edges, []⟩, some q, cs, bs⟩

/-- `questionLayouterNonBranching`: fixed 300 by 286 boundary, node map with
only the question node, no edges, no mutation. -/
def questionLayouterNonBranchingSt (questionNode : GraphNode)
    (choiceNodes branchNodes : List GraphNode) : LayoutResult :=
  ⟨⟨Boundary.mkWH 300 286, ⟨some questionNode, [], []⟩, [], []⟩,
    some questionNode, choiceNodes, branchNodes⟩

/-- `questionLayouter` (state-passing form): dispatch on
`questionNode?.data?.type`; a missing question node yields the empty layout.
The `QuestionType` string enum is modelled from the spec as the strings
"choice", "confirm", "text", "number". -/
def questionLayouterSt (questionNode : Option GraphNode)
    (choiceNodes branchNodes : List GraphNode) : LayoutResult :=
  match questionNode with
  | none => ⟨{}, none, choiceNodes, branchNodes⟩
  | some q =>
    if q.data.qtype == some ("choice") then
      questionLayouterBranchingWithConvergenceSt q choiceNodes branchNodes
    else if q.data.qtype == some ("confirm") then
      questionLayouterBranchingSt q choiceNodes branchNodes
    else
      questionLayouterNonBranchingSt q choiceNodes branchNodes

/-- `questionLayouter` as the source declares it: just the returned
`GraphLayout`. -/
def questionLayouter (questionNode : Option GraphNode)
    (choiceNodes : List GraphNode) (branchNodes : List GraphNode := []) :
    GraphLayout :=
  (questionLayouterSt questionNode choiceNodes branchNodes).layout

/-- A choice does not redirect: its `gotoChoice` is falsy, or points at its
own `choiceId`, or matches no branch node's `choiceId`. -/
def noRedirect (bs : List GraphNode) (c : GraphNode) : Prop :=
  strFalsy c.data.gotoChoice = true ∨ c.data.gotoChoice = c.data.choiceId ∨
    ∀ b ∈ bs, b.data.choiceId ≠ c.data.gotoChoice

instance (bs : List GraphNode) (c : GraphNode) : Decidable (noRedirect bs c) := by
  unfold noRedirect
  infer_instance

/-- The `data` payloads of a node list. -/
def datas (l : List GraphNode) : List NodeData := l.map fun n => n.data

/-- The boundaries of a node list. -/
def bndrys (l : List GraphNode) : List Boundary := l.map fun n => n.boundary

/-- Sample question node used in concrete witnesses. -/
def sampleQuestion (t : String) : GraphNode :=
  { id := ("q"), data := { qtype := some t }, boundary := ⟨200, 48, 100⟩ }

/-- Sample non-redirecting choice node used in concrete witnesses. -/
def sampleChoice (s : String) : GraphNode :=
  { id := s, data := { choiceId := some s }, boundary := ⟨100, 40, 50⟩ }

/-- Sample redirecting choice node (its `gotoChoice` points at `t`). -/
def sampleRedirectChoice (s t : String) : GraphNode :=
  { id := s, data := { choiceId := some s, gotoChoice := some t },
    boundary := ⟨100, 40, 50⟩ }

/-- Sample branch node used in concrete witnesses. -/
def sampleBranch (s : String) : GraphNode :=
  { id := s, data := { choiceId := some s, label := some s },
    boundary := ⟨120, 30, 60⟩ }

/-- A sample branch node with a caller-assigned prior offset. -/
def sampleBranchAt (s : String) (y : ℚ) : GraphNode :=
  { sampleBranch s with offset := ⟨0, y⟩ }

/-- The choice list of the spec's worked convergence example: choice A
redirects to case C, while B and C do not redirect. -/
def exampleChoices : List GraphNode :=
  [sampleRedirectChoice ("A") ("C"), sampleChoice ("B"), sampleChoice ("C")]

/-- The branch list of the spec's worked convergence example. -/
def exampleBranches : List GraphNode :=
  [sampleBranch ("A"), sampleBranch ("B"), sampleBranch ("C")]

theorem findChoiceIdx_eq_none (g : String) (bs : List GraphNode)
    (h : ∀ b ∈ bs, b.data.choiceId ≠ some g) :
    ∀ i, findChoiceIdx g i bs = none := by
  induction bs with
  | nil => intro i; rfl
  | cons b rest ih =>
    intro i
    have hb : (b.data.choiceId == some (g)) = false :=
      beq_eq_false_iff_ne.mpr (h b (List.mem_cons_self b rest))
    simp only [findChoiceIdx, hb, if_false]
    exact ih (fun x hx => h x (List.mem_cons_of_mem b hx)) (i + 1)

theorem convEntry_eq_none_of_unmatched (bs : List GraphNode) (c : GraphNode)
    (h : ∀ b ∈ bs, b.data.choiceId ≠ c.data.gotoChoice) :
    convEntry bs c = none := by
  unfold convEntry
  cases hg : c.data.gotoChoice with
  | none => rfl
  | some g =>
    by_cases h1 : g == ("")
    · simp [h1]
    · by_cases h2 : c.data.choiceId == some (g)
      · simp [h1, h2]
      · simp only [h1, h2, if_false, Bool.false_eq_true]
        exact findChoiceIdx_eq_none g bs (fun b hb => hg ▸ h b hb) 0

/-- C6: a missing question node yields the empty `GraphLayout`; a branching
question type (`choice` or `confirm`) with no branch nodes likewise yields the
empty `GraphLayout` — a defined no-op, not an error. -/
theorem questionLayouter_empty_cases :
    (∀ cs bs, questionLayouter none cs bs = ({} : GraphLayout)) ∧
    (∀ (q : GraphNode) cs,
      (q.data.qtype = some ("choice") ∨ q.data.qtype = some ("confirm")) →
      questionLayouter (some q) cs [] = ({} : GraphLayout)) := by
  constructor
  · intro cs bs; rfl
  · intro q cs h
    rcases h with h | h <;>
      simp +decide [questionLayouter, questionLayouterSt, h,
        questionLayouterBranchingWithConvergenceSt, questionLayouterBranchingSt]

theorem questionLayouter_empty_cases_witness :
    questionLayouter (some (sampleQuestion ("confirm"))) [sampleChoice ("A")] [] =
      ({} : GraphLayout) :=
  questionLayouter_empty_cases.2 (sampleQuestion ("confirm")) [sampleChoice ("A")]
    (Or.inr rfl)

/-- C7: for a question whose type is neither `choice` nor `confirm` (so
`text`, `number`, or anything unrecognized) the layout has the fixed 300 by
286 boundary, no edges, a node map holding only the question node, and no
node is mutated, regardless of the choice and branch inputs. -/
theorem questionLayouterSt_nonbranching_result (q : GraphNode)
    (cs bs : List GraphNode)
    (h1 : q.data.qtype ≠ some ("choice"))
    (h2 : q.data.qtype ≠ some ("confirm")) :
    questionLayouterSt (some q) cs bs =
      ⟨⟨⟨300, 286, 150⟩, ⟨some q, [], []⟩, [], []⟩, some q, cs, bs⟩ := by
  have e1 : (q.data.qtype == some ("choice")) = false := beq_eq_false_iff_ne.mpr h1
  have e2 : (q.data.qtype == some ("confirm")) = false := beq_eq_false_iff_ne.mpr h2
  simp only [questionLayouterSt, e1, e2, Bool.false_eq_true, if_false,
    questionLayouterNonBranchingSt, Boundary.mkWH]
  norm_num

theorem questionLayouterSt_nonbranching_result_witness :
    questionLayouterSt (some (sampleQuestion ("text"))) [sampleChoice ("A")]
        [sampleBranch ("A")] =
      ⟨⟨⟨300, 286, 150⟩, ⟨some (sampleQuestion ("text")), [], []⟩, [], []⟩,
        some (sampleQuestion ("text")), [sampleChoice ("A")], [sampleBranch ("A")]⟩ :=
  questionLayouterSt_nonbranching_result _ _ _ (by decide) (by decide)

/-- C9: every "error" condition degrades to a defined value rather than a
failure: a missing question node returns the empty layout untouched, a
branching type with no branches returns the empty layout, and a `gotoChoice`
matching no branch contributes no convergence entry (treated as
non-redirecting). -/
theorem questionLayouter_degrades_gracefully :
    (∀ cs bs, questionLayouterSt none cs bs = ⟨{}, none, cs, bs⟩) ∧
    (∀ (q : GraphNode) cs,
      (q.data.qtype = some ("choice") ∨ q.data.qtype = some ("confirm")) →
      (questionLayouterSt (some q) cs []).layout = ({} : GraphLayout)) ∧
    (∀ bs (c : GraphNode), (∀ b ∈ bs, b.data.choiceId ≠ c.data.gotoChoice) →
      convEntry bs c = none) := by
  refine ⟨fun cs bs => rfl, ?_, fun bs c h => convEntry_eq_none_of_unmatched bs c h⟩
  intro q cs h
  rcases h with h | h <;>
    simp +decide [questionLayouterSt, h,
      questionLayouterBranchingWithConvergenceSt, questionLayouterBranchingSt]

theorem questionLayouter_degrades_gracefully_witness :
    (questionLayouterSt none [] [] = ⟨{}, none, [], []⟩) ∧
    ((questionLayouterSt (some (sampleQuestion ("choice"))) [sampleChoice ("A")]
        []).layout = ({} : GraphLayout)) ∧
    convEntry [sampleBranch ("B")] (sampleRedirectChoice ("A") ("X")) = none :=
  ⟨questionLayouter_degrades_gracefully.1 [] [],
   questionLayouter_degrades_gracefully.2.1 _ _ (Or.inl rfl),
   questionLayouter_degrades_gracefully.2.2 _ _ (by decide)⟩

theorem convEntry_eq_none_of_noRedirect (bs : List GraphNode) (c : GraphNode)
    (h : noRedirect bs c) : convEntry bs c = none := by
  rcases h with h | h | h
  · unfold convEntry
    cases hg : c.data.gotoChoice with
    | none => rfl
    | some g =>
      have h' : g = ("") := by simpa [strFalsy, hg] using h
      simp [h']
  · unfold convEntry
    cases hg : c.data.gotoChoice with
    | none => rfl
    | some g =>
      by_cases h1 : g == ("")
      · simp [h1]
      · have h2 : (c.data.choiceId == some (g)) = true := by
          rw [← h, hg]; simp
        simp [h1, h2]
  · exact convEntry_eq_none_of_unmatched bs c h

theorem convMapGo_eq_nil (bs cs : List GraphNode)
    (h : ∀ c ∈ cs, noRedirect bs c) : ∀ i, convMapGo bs i cs = [] := by
  induction cs with
  | nil => intro i; rfl
  | cons c rest ih =>
    intro i
    simp only [convMapGo,
      convEntry_eq_none_of_noRedirect bs c (h c (List.mem_cons_self c rest))]
    exact ih (fun x hx => h x (List.mem_cons_of_mem c hx)) (i + 1)

/-- C1: for a `choice` question in which no choice redirects (each choice has
a falsy `gotoChoice`, or one pointing at its own `choiceId`, or one matching
no branch), the layouter's result — boundary, edges, node positions and
post-state alike — is identical to running the plain branching layout on the
same inputs. -/
theorem questionLayouter_choice_noRedirect_eq_branching (q : GraphNode)
    (cs bs : List GraphNode) (ht : q.data.qtype = some ("choice"))
    (h : ∀ c ∈ cs, noRedirect bs c) :
    questionLayouterSt (some q) cs bs = questionLayouterBranchingSt q cs bs := by
  have e1 : (q.data.qtype == some ("choice")) = true := by rw [ht]; rfl
  simp only [questionLayouterSt, e1, if_true]
  unfold questionLayouterBranchingWithConvergenceSt
  cases hbs : bs.isEmpty with
  | true => simp [hbs, questionLayouterBranchingSt]
  | false =>
    have hm : (convergenceMap cs bs).isEmpty = true := by
      unfold convergenceMap
      rw [convMapGo_eq_nil bs cs h 0]
      rfl
    simp [hbs, hm]

theorem questionLayouter_choice_noRedirect_eq_branching_witness :
    questionLayouterSt (some (sampleQuestion ("choice"))) [sampleChoice ("A")]
        [sampleBranch ("A")] =
      questionLayouterBranchingSt (sampleQuestion ("choice")) [sampleChoice ("A")]
        [sampleBranch ("A")] :=
  questionLayouter_choice_noRedirect_eq_branching _ _ _ rfl (by decide)

theorem convEntry_nil (c : GraphNode) : convEntry [] c = none := by
  unfold convEntry
  cases c.data.gotoChoice with
  | none => rfl
  | some g =>
    by_cases h1 : g == ("")
    · simp [h1]
    · by_cases h2 : c.data.choiceId == some (g)
      · simp [h1, h2]
      · simp [h1, h2, findChoiceIdx]

theorem convergenceMap_nil_branches (cs : List GraphNode) :
    convergenceMap cs [] = [] := by
  show convMapGo [] 0 cs = []
  suffices h : ∀ i, convMapGo [] i cs = [] from h 0
  induction cs with
  | nil => intro i; rfl
  | cons c rest ih =>
    intro i
    simp only [convMapGo, convEntry_nil]
    exact ih (i + 1)

/-- C10: the 200-unit height inflation is applied only on the plain branching
path.  A `choice` layout with a non-empty convergence map has boundary height
exactly question height + two branch intervals + composed content height; a
`confirm` layout (and a `choice` layout whose convergence map is empty, which
delegates to the plain path) adds the 200-unit padding to the content height. -/
theorem questionLayouter_height_padding :
    (∀ (q : GraphNode) cs bs, q.data.qtype = some ("choice") →
      convergenceMap cs bs ≠ [] →
      (questionLayouterSt (some q) cs bs).layout.boundary.height =
        q.boundary.height + 2 * BranchIntervalY +
          (convContentRow cs bs).boundary.height) ∧
    (∀ (q : GraphNode) cs bs, q.data.qtype = some ("confirm") → bs ≠ [] →
      (questionLayouterSt (some q) cs bs).layout.boundary.height =
        q.boundary.height + 2 * BranchIntervalY +
          ((plainContentRow cs bs).boundary.height + 200)) ∧
    (∀ (q : GraphNode) cs bs, q.data.qtype = some ("choice") →
      convergenceMap cs bs = [] → bs ≠ [] →
      (questionLayouterSt (some q) cs bs).layout.boundary.height =
        q.boundary.height + 2 * BranchIntervalY +
          ((plainContentRow cs bs).boundary.height + 200)) := by
  refine ⟨?_, ?_, ?_⟩
  · intro q cs bs ht hm
    have e1 : (q.data.qtype == some ("choice")) = true := by rw [ht]; rfl
    have hbs : bs.isEmpty = false := by
      cases bs with
      | nil => exact absurd (convergenceMap_nil_branches cs) hm
      | cons b rest => rfl
    have hm' : (convergenceMap cs bs).isEmpty = false := by
      cases hmm : convergenceMap cs bs with
      | nil => exact absurd hmm hm
      | cons a l => rfl
    simp only [questionLayouterSt, e1, if_true,
      questionLayouterBranchingWithConvergenceSt, hbs, hm', Bool.false_eq_true,
      if_false, convRootCoord, Coord.below, GraphNode.toCoord]
    ring
  · intro q cs bs ht hbs
    have e1 : (q.data.qtype == some ("choice")) = false := by rw [ht]; rfl
    have e2 : (q.data.qtype == some ("confirm")) = true := by rw [ht]; rfl
    have hbs' : bs.isEmpty = false := by cases bs with
      | nil => exact absurd rfl hbs
      | cons b rest => rfl
    simp only [questionLayouterSt, e1, e2, Bool.false_eq_true, if_false, if_true,
      questionLayouterBranchingSt, hbs', plainRootCoord, Coord.below,
      GraphNode.toCoord]
    ring
  · intro q cs bs ht hm hbs
    have e1 : (q.data.qtype == some ("choice")) = true := by rw [ht]; rfl
    have hbs' : bs.isEmpty = false := by cases bs with
      | nil => exact absurd rfl hbs
      | cons b rest => rfl
    have hm' : (convergenceMap cs bs).isEmpty = true := by rw [hm]; rfl
    simp only [questionLayouterSt, e1, if_true,
      questionLayouterBranchingWithConvergenceSt, hbs', hm', Bool.false_eq_true,
      if_false, if_true, questionLayouterBranchingSt, plainRootCoord,
      Coord.below, GraphNode.toCoord]
    ring

theorem questionLayouter_height_padding_witness :
    (questionLayouterSt (some (sampleQuestion ("choice")))
        [sampleRedirectChoice ("A") ("C"), sampleChoice ("B"), sampleChoice ("C")]
        [sampleBranch ("A"), sampleBranch ("B"), sampleBranch ("C")]
      ).layout.boundary.height =
      (sampleQuestion ("choice")).boundary.height + 2 * BranchIntervalY +
        (convContentRow
          [sampleRedirectChoice ("A") ("C"), sampleChoice ("B"), sampleChoice ("C")]
          [sampleBranch ("A"), sampleBranch ("B"), sampleBranch ("C")]
        ).boundary.height :=
  questionLayouter_height_padding.1 _ _ _ rfl (by decide)

/-- C3 counterexample: on a concrete `confirm` question with 3 choices and 3
branches the returned edges list has 5 entries — the question-to-baseline
down edge, three baseline-to-branch edges and the baseline — so the claimed
count of exactly 4 edges is false. -/
theorem confirm_three_edge_count_counterexample :
    (questionLayouter (some (sampleQuestion ("confirm")))
        [sampleChoice ("A"), sampleChoice ("B"), sampleChoice ("C")]
        [sampleBranch ("A"), sampleBranch ("B"), sampleBranch ("C")]
      ).edges.length ≠ 4 := by
  decide

/-- C3 (amended): for `confirm` with 3 choices and 3 branches the layout has
exactly 5 edges (1 question-down edge, 3 baseline-to-branch edges, 1 baseline
edge) and its boundary height is the question height plus twice the branch
interval plus the branch-row height plus the 200-unit padding. -/
theorem confirm_three_edges_and_height (q c1 c2 c3 b1 b2 b3 : GraphNode)
    (ht : q.data.qtype = some ("confirm"))
    (hc1 : 0 ≤ c1.boundary.height) (hc2 : 0 ≤ c2.boundary.height)
    (hc3 : 0 ≤ c3.boundary.height) (hb1 : 0 ≤ b1.boundary.height)
    (hb2 : 0 ≤ b2.boundary.height) (hb3 : 0 ≤ b3.boundary.height) :
    (questionLayouter (some q) [c1, c2, c3] [b1, b2, b3]).edges.length = 5 ∧
    (questionLayouter (some q) [c1, c2, c3] [b1, b2, b3]).boundary.height =
      q.boundary.height + 2 * BranchIntervalY +
        (max (c1.boundary.height + ElementIntervalY + b1.boundary.height)
          (max (c2.boundary.height + ElementIntervalY + b2.boundary.height)
            (c3.boundary.height + ElementIntervalY + b3.boundary.height)) + 200) := by
  have e1 : (q.data.qtype == some ("choice")) = false := by rw [ht]; rfl
  have e2 : (q.data.qtype == some ("confirm")) = true := by rw [ht]; rfl
  constructor
  · simp [questionLayouter, questionLayouterSt, e1, e2,
      questionLayouterBranchingSt, calculateEdges, applyIdx, List.length]
  · simp only [questionLayouter, questionLayouterSt, e1, e2, Bool.false_eq_true,
      if_false, if_true, questionLayouterBranchingSt, List.isEmpty_cons,
      plainRootCoord, Coord.below, GraphNode.toCoord, plainContentRow,
      Coord.topAlignWithInterval, pairCoords, rowHeight]
    have h3 : (c3.boundary.height + ElementIntervalY + b3.boundary.height) ⊔ (0:ℚ) =
        c3.boundary.height + ElementIntervalY + b3.boundary.height :=
      max_eq_left (by norm_num [ElementIntervalY]; linarith)
    rw [h3]
    ring

theorem confirm_three_edges_and_height_witness :
    (questionLayouter (some (sampleQuestion ("confirm")))
        [sampleChoice ("A"), sampleChoice ("B"), sampleChoice ("C")]
        [sampleBranch ("A"), sampleBranch ("B"), sampleBranch ("C")]
      ).edges.length = 5 ∧
    (questionLayouter (some (sampleQuestion ("confirm")))
        [sampleChoice ("A"), sampleChoice ("B"), sampleChoice ("C")]
        [sampleBranch ("A"), sampleBranch ("B"), sampleBranch ("C")]
      ).boundary.height =
      (sampleQuestion ("confirm")).boundary.height + 2 * BranchIntervalY +
        (max ((sampleChoice ("A")).boundary.height + ElementIntervalY +
            (sampleBranch ("A")).boundary.height)
          (max ((sampleChoice ("B")).boundary.height + ElementIntervalY +
              (sampleBranch ("B")).boundary.height)
            ((sampleChoice ("C")).boundary.height + ElementIntervalY +
              (sampleBranch ("C")).boundary.height)) + 200) :=
  confirm_three_edges_and_height _ _ _ _ _ _ _ rfl (by decide) (by decide)
    (by decide) (by decide) (by decide) (by decide)

theorem applyIdx_length (asg : List (NodeRef × Pt)) (mk : Nat → NodeRef) :
    ∀ i l, (applyIdx asg mk i l).length = l.length := by
  intro i l
  induction l generalizing i with
  | nil => rfl
  | cons n rest ih => simp [applyIdx, ih]

theorem pairCoords_length : ∀ (i : Nat) (cs bs : List GraphNode),
    (pairCoords i cs bs).length = min cs.length bs.length := by
  intro i cs
  induction cs generalizing i with
  | nil => intro bs; cases bs <;> simp [pairCoords]
  | cons c cr ih =>
    intro bs
    cases bs with
    | nil => simp [pairCoords]
    | cons b br => simp [pairCoords, ih (i + 1) br, Nat.succ_min_succ]

theorem filter_right_map_down (l : List GraphNode) (f : GraphNode → Edge)
    (h : ∀ b, (f b).direction = EdgeDirection.Down) :
    (l.map f).filter (fun e => e.direction == EdgeDirection.Right) = [] := by
  induction l with
  | nil => rfl
  | cons b rest ih => simp [List.filter_cons, h b, ih]

theorem filter_right_branch_edges (qn : GraphNode) (y : ℚ) (l : List GraphNode) :
    (l.map fun b =>
      { id := ("edge/") ++ qn.id ++ ("/case/baseline->") ++ b.id
        direction := EdgeDirection.Down
        x := b.offset.x + b.boundary.axisX
        y := y
        length := b.offset.y - y
        options := some ⟨b.data.label⟩ : Edge }).filter
      (fun e => e.direction == EdgeDirection.Right) = [] :=
  filter_right_map_down l _ (fun _ => rfl)

/-- C4: for `confirm` with branches no more numerous than choices, exactly
`min(choices, branches)` choice–branch pairs are composed, and the
`Right`-direction edges of the result are exactly one baseline edge spanning
from the first to the last branch node's center when there is more than one
branch, and none otherwise. -/
theorem confirm_pairing_and_baseline (q : GraphNode) (cs bs : List GraphNode)
    (ht : q.data.qtype = some ("confirm")) (hbs : bs ≠ [])
    (hle : bs.length ≤ cs.length) :
    (pairCoords 0 cs bs).length = min cs.length bs.length ∧
    (let r := (questionLayouterSt (some q) cs bs).layout
     let q' := r.nodeMap.questionNode.getD {}
     let bs' := r.nodeMap.branchNodes
     let fb := bs'.headD {}
     let lb := bs'.getLast?.getD {}
     r.edges.filter (fun e => e.direction == EdgeDirection.Right) =
      (if 1 < bs.length then
        [{ id := ("edge/") ++ q'.id ++ ("/baseline")
           direction := EdgeDirection.Right
           x := fb.offset.x + fb.boundary.axisX
           y := q'.offset.y + q'.boundary.height + BranchIntervalY
           length := lb.offset.x + lb.boundary.axisX -
             (fb.offset.x + fb.boundary.axisX) }]
       else [])) := by
  refine ⟨pairCoords_length 0 cs bs, ?_⟩
  have e1 : (q.data.qtype == some ("choice")) = false := by rw [ht]; rfl
  have e2 : (q.data.qtype == some ("confirm")) = true := by rw [ht]; rfl
  have hbs' : bs.isEmpty = false := by
    cases bs with
    | nil => exact absurd rfl hbs
    | cons b rest => rfl
  have hbl : ∀ asg, (applyIdx asg NodeRef.branch 0 bs).length = bs.length :=
    fun asg => applyIdx_length asg NodeRef.branch 0 bs
  simp only [questionLayouterSt, e1, e2, Bool.false_eq_true, if_false, if_true,
    questionLayouterBranchingSt, hbs', calculateEdges]
  by_cases hlen : 1 < bs.length
  · simp [List.filter_cons, List.filter_append, hbl, hlen,
      filter_right_branch_edges]
  · simp [List.filter_cons, List.filter_append, hbl, hlen,
      filter_right_branch_edges]

theorem confirm_pairing_and_baseline_witness :
    (pairCoords 0 [sampleChoice ("A"), sampleChoice ("B")]
        [sampleBranch ("A"), sampleBranch ("B")]).length =
      min 2 2 ∧
    (let r := (questionLayouterSt (some (sampleQuestion ("confirm")))
        [sampleChoice ("A"), sampleChoice ("B")]
        [sampleBranch ("A"), sampleBranch ("B")]).layout
     let q' := r.nodeMap.questionNode.getD {}
     let bs' := r.nodeMap.branchNodes
     let fb := bs'.headD {}
     let lb := bs'.getLast?.getD {}
     r.edges.filter (fun e => e.direction == EdgeDirection.Right) =
      (if 1 < [sampleBranch ("A"), sampleBranch ("B")].length then
        [{ id := ("edge/") ++ q'.id ++ ("/baseline")
           direction := EdgeDirection.Right
           x := fb.offset.x + fb.boundary.axisX
           y := q'.offset.y + q'.boundary.height + BranchIntervalY
           length := lb.offset.x + lb.boundary.axisX -
             (fb.offset.x + fb.boundary.axisX) }]
       else [])) :=
  confirm_pairing_and_baseline _ _ _ rfl (by decide) (by decide)

theorem applyOne_hidden (asg : List (NodeRef × Pt)) (r : NodeRef) (n : GraphNode) :
    (applyOne asg r n).hidden = n.hidden := by
  unfold applyOne
  cases findPos asg r <;> rfl

theorem applyIdx_getD (asg : List (NodeRef × Pt)) (mk : Nat → NodeRef) :
    ∀ (l : List GraphNode) (j i : Nat), i < l.length →
      (applyIdx asg mk j l).getD i {} = applyOne asg (mk (j + i)) (l.getD i {}) := by
  intro l
  induction l with
  | nil => intro j i h; exact absurd h (Nat.not_lt_zero i)
  | cons n rest ih =>
    intro j i h
    cases i with
    | zero => simp [applyIdx]
    | succ i' =>
      have h' : i' < rest.length := Nat.lt_of_succ_lt_succ h
      simp only [applyIdx, List.getD_cons_succ]
      rw [ih (j + 1) i' h']
      congr 2
      omega

theorem markHiddenGo_length (p : Nat → Bool) :
    ∀ (l : List GraphNode) (j : Nat), (markHiddenGo p j l).length = l.length := by
  intro l
  induction l with
  | nil => intro j; rfl
  | cons b rest ih => intro j; simp [markHiddenGo, ih]

theorem markHiddenGo_getD (p : Nat → Bool) :
    ∀ (l : List GraphNode) (j i : Nat), i < l.length →
      (markHiddenGo p j l).getD i {} =
        (if p (j + i) then { l.getD i {} with hidden := true } else l.getD i {}) := by
  intro l
  induction l with
  | nil => intro j i h; exact absurd h (Nat.not_lt_zero i)
  | cons b rest ih =>
    intro j i h
    cases i with
    | zero => simp [markHiddenGo]
    | succ i' =>
      have h' : i' < rest.length := Nat.lt_of_succ_lt_succ h
      simp only [markHiddenGo, List.getD_cons_succ]
      rw [ih (j + 1) i' h']
      have : j + 1 + i' = j + (i' + 1) := by omega
      rw [this]

theorem mem_reachableConnections (cs bs : List GraphNode) (k : Nat)
    (hk : k < max cs.length bs.length) (hne : mappedChoices cs bs k ≠ []) :
    (k, mappedChoices cs bs k) ∈ reachableConnections cs bs := by
  unfold reachableConnections
  apply List.mem_filterMap.mpr
  refine ⟨k, List.mem_range.mpr hk, ?_⟩
  have he : (mappedChoices cs bs k).isEmpty = false := by
    cases h : mappedChoices cs bs k with
    | nil => exact absurd h hne
    | cons a l => rfl
  simp [he]

/-- C2: for a `choice` question with a non-empty convergence map, after
layout every branch node with zero mapped choices has `hidden = true`, and
every branch node with at least one mapped choice keeps its `hidden` field
unchanged and appears (with its mapped choices) among the reachable
connections that drive the layout geometry. -/
theorem choice_convergence_hidden_marking (q : GraphNode) (cs bs : List GraphNode)
    (ht : q.data.qtype = some ("choice")) (hm : convergenceMap cs bs ≠ []) :
    let bs' := (questionLayouterSt (some q) cs bs).layout.nodeMap.branchNodes
    bs'.length = bs.length ∧
    ∀ i, i < bs.length →
      ((mappedChoices cs bs i = [] → (bs'.getD i {}).hidden = true) ∧
       (mappedChoices cs bs i ≠ [] →
         (bs'.getD i {}).hidden = (bs.getD i {}).hidden ∧
         (i, mappedChoices cs bs i) ∈ reachableConnections cs bs)) := by
  intro bs'
  have e1 : (q.data.qtype == some ("choice")) = true := by rw [ht]; rfl
  have hbs' : bs.isEmpty = false := by
    cases bs with
    | nil => exact absurd (convergenceMap_nil_branches cs) hm
    | cons b rest => rfl
  have hm' : (convergenceMap cs bs).isEmpty = false := by
    cases hmm : convergenceMap cs bs with
    | nil => exact absurd hmm hm
    | cons a l => rfl
  have hbseq : bs' = applyIdx (convRootCoord q cs bs).nodes NodeRef.branch 0
      (markHidden cs bs) := by
    show (questionLayouterSt (some q) cs bs).layout.nodeMap.branchNodes = _
    simp only [questionLayouterSt, e1, if_true,
      questionLayouterBranchingWithConvergenceSt, hbs', hm', Bool.false_eq_true,
      if_false]
  constructor
  · rw [hbseq, applyIdx_length]
    unfold markHidden
    rw [markHiddenGo_length]
  · intro i hi
    have hmark : i < (markHidden cs bs).length := by
      unfold markHidden
      rw [markHiddenGo_length]
      exact hi
    have hgd : bs'.getD i {} =
        applyOne (convRootCoord q cs bs).nodes (NodeRef.branch (0 + i))
          ((markHidden cs bs).getD i {}) := by
      rw [hbseq, applyIdx_getD _ _ _ 0 i hmark]
    have hhid : (bs'.getD i {}).hidden = ((markHidden cs bs).getD i {}).hidden := by
      rw [hgd, applyOne_hidden]
    have hmk : ((markHidden cs bs).getD i {}) =
        (if (mappedChoices cs bs (0 + i)).isEmpty then
          { bs.getD i {} with hidden := true } else bs.getD i {}) := by
      unfold markHidden
      exact markHiddenGo_getD _ bs 0 i hi
    constructor
    · intro hempty
      have : (mappedChoices cs bs (0 + i)).isEmpty = true := by
        simp [Nat.zero_add, hempty]
      rw [hhid, hmk, this]
      rfl
    · intro hne
      have hie : (mappedChoices cs bs (0 + i)).isEmpty = false := by
        rw [Nat.zero_add]
        cases hmm : mappedChoices cs bs i with
        | nil => exact absurd hmm hne
        | cons a l => rfl
      constructor
      · rw [hhid, hmk, hie]
        rfl
      · exact mem_reachableConnections cs bs i
          (Nat.lt_of_lt_of_le hi (Nat.le_max_right cs.length bs.length)) hne

theorem choice_convergence_hidden_marking_witness :
    (let bs' := (questionLayouterSt (some (sampleQuestion ("choice")))
        [sampleRedirectChoice ("A") ("C"), sampleChoice ("B"), sampleChoice ("C")]
        [sampleBranch ("A"), sampleBranch ("B"), sampleBranch ("C")]
      ).layout.nodeMap.branchNodes
     bs'.length =
      [sampleBranch ("A"), sampleBranch ("B"), sampleBranch ("C")].length ∧
     ∀ i, i < [sampleBranch ("A"), sampleBranch ("B"), sampleBranch ("C")].length →
      ((mappedChoices
          [sampleRedirectChoice ("A") ("C"), sampleChoice ("B"), sampleChoice ("C")]
          [sampleBranch ("A"), sampleBranch ("B"), sampleBranch ("C")] i = [] →
          (bs'.getD i {}).hidden = true) ∧
       (mappedChoices
          [sampleRedirectChoice ("A") ("C"), sampleChoice ("B"), sampleChoice ("C")]
          [sampleBranch ("A"), sampleBranch ("B"), sampleBranch ("C")] i ≠ [] →
          (bs'.getD i {}).hidden =
            ([sampleBranch ("A"), sampleBranch ("B"), sampleBranch ("C")].getD i {}).hidden ∧
          (i, mappedChoices
            [sampleRedirectChoice ("A") ("C"), sampleChoice ("B"), sampleChoice ("C")]
            [sampleBranch ("A"), sampleBranch ("B"), sampleBranch ("C")] i) ∈
            reachableConnections
              [sampleRedirectChoice ("A") ("C"), sampleChoice ("B"), sampleChoice ("C")]
              [sampleBranch ("A"), sampleBranch ("B"), sampleBranch ("C")]))) :=
  choice_convergence_hidden_marking _ _ _ rfl (by decide)

theorem mem_concatMapL_iff (f : α → List β) (l : List α) (b : β) :
    b ∈ concatMapL f l ↔ ∃ a ∈ l, b ∈ f a := by
  induction l with
  | nil => simp [concatMapL]
  | cons a rest ih =>
    simp only [concatMapL, List.mem_append, ih]
    constructor
    · rintro (hb | ⟨x, hx, hbx⟩)
      · exact ⟨a, List.mem_cons_self a rest, hb⟩
      · exact ⟨x, List.mem_cons_of_mem a hx, hbx⟩
    · rintro ⟨x, hx, hbx⟩
      rcases List.mem_cons.mp hx with h | h
      · subst h; exact Or.inl hbx
      · exact Or.inr ⟨x, h, hbx⟩

theorem findChoiceIdx_lt (g : String) :
    ∀ (l : List GraphNode) (j k : Nat), findChoiceIdx g j l = some k →
      k < j + l.length := by
  intro l
  induction l with
  | nil => intro j k h; exact absurd h (by simp [findChoiceIdx])
  | cons b rest ih =>
    intro j k h
    unfold findChoiceIdx at h
    by_cases hb : b.data.choiceId == some (g)
    · rw [if_pos hb] at h
      have hjk : j = k := by injection h
      subst hjk
      simp only [List.length_cons]
      omega
    · rw [if_neg hb] at h
      have := ih (j + 1) k h
      simp only [List.length_cons]
      omega

theorem convEntry_lt (bs : List GraphNode) (c : GraphNode) (k : Nat)
    (h : convEntry bs c = some k) : k < bs.length := by
  unfold convEntry at h
  split at h
  · exact absurd h (by simp)
  · split at h
    · exact absurd h (by simp)
    · split at h
      · exact absurd h (by simp)
      · have := findChoiceIdx_lt _ bs 0 k h
        omega

theorem lookupNat_convMapGo_lt (bs : List GraphNode) :
    ∀ (cs : List GraphNode) (j i k : Nat),
      lookupNat (convMapGo bs j cs) i = some k → k < bs.length := by
  intro cs
  induction cs with
  | nil => intro j i k h; exact absurd h (by simp [convMapGo, lookupNat])
  | cons c rest ih =>
    intro j i k h
    unfold convMapGo at h
    cases he : convEntry bs c with
    | some k0 =>
      simp only [he] at h
      unfold lookupNat at h
      by_cases hj : j = i
      · rw [if_pos hj] at h
        have hk : k0 = k := by injection h
        exact hk ▸ convEntry_lt bs c k0 he
      · rw [if_neg hj] at h
        exact ih (j + 1) i k h
    | none =>
      simp only [he] at h
      exact ih (j + 1) i k h

theorem effCase_lt (cs bs : List GraphNode) (i : Nat) (hi : i < cs.length) :
    effCase (convergenceMap cs bs) i < max cs.length bs.length := by
  unfold effCase
  cases hl : lookupNat (convergenceMap cs bs) i with
  | none =>
    simp only [Option.getD_none]
    exact Nat.lt_of_lt_of_le hi (Nat.le_max_left cs.length bs.length)
  | some k =>
    simp only [Option.getD_some]
    exact Nat.lt_of_lt_of_le (lookupNat_convMapGo_lt bs cs 0 i k hl)
      (Nat.le_max_right cs.length bs.length)

theorem mem_mappedChoices_self (cs bs : List GraphNode) (i : Nat)
    (hi : i < cs.length) :
    i ∈ mappedChoices cs bs (effCase (convergenceMap cs bs) i) := by
  unfold mappedChoices
  rw [List.mem_filter]
  exact ⟨List.mem_range.mpr hi, by simp⟩

theorem choice_in_some_group (cs bs : List GraphNode) (i : Nat)
    (hi : i < cs.length) :
    ∃ p ∈ reachableConnections cs bs, i ∈ p.2 := by
  refine ⟨(effCase (convergenceMap cs bs) i,
    mappedChoices cs bs (effCase (convergenceMap cs bs) i)), ?_, ?_⟩
  · exact mem_reachableConnections cs bs _ (effCase_lt cs bs i hi)
      (List.ne_nil_of_mem (mem_mappedChoices_self cs bs i hi))
  · exact mem_mappedChoices_self cs bs i hi

theorem mem_convChoiceEdges_first (cs : List GraphNode) (y : ℚ) (conv : Bool)
    (i : Nat) :
    ({ id := ("edge/") ++ (cs.getD i {}).id ++ ("/baseline->choice")
       direction := EdgeDirection.Down
       x := (cs.getD i {}).offset.x + (cs.getD i {}).boundary.axisX
       y := y
       length := BranchIntervalY } : Edge) ∈ convChoiceEdges cs y conv i := by
  simp [convChoiceEdges]

theorem mem_convChoiceEdges_second (cs : List GraphNode) (y : ℚ) (conv : Bool)
    (i : Nat) :
    ({ id := ("edge/") ++ (cs.getD i {}).id ++ ("/choice->mid-baseline")
       direction := EdgeDirection.Down
       x := (cs.getD i {}).offset.x + (cs.getD i {}).boundary.axisX
       y := (cs.getD i {}).offset.y + (cs.getD i {}).boundary.height
       length := if conv then ElementIntervalY / 2 else ElementIntervalY } : Edge) ∈
      convChoiceEdges cs y conv i := by
  simp [convChoiceEdges]

theorem mem_convGroupEdges_choice_first (cs bs : List GraphNode) (y : ℚ)
    (p : Nat × List Nat) (i : Nat) (hi : i ∈ p.2) :
    ({ id := ("edge/") ++ (cs.getD i {}).id ++ ("/baseline->choice")
       direction := EdgeDirection.Down
       x := (cs.getD i {}).offset.x + (cs.getD i {}).boundary.axisX
       y := y
       length := BranchIntervalY } : Edge) ∈ convGroupEdges cs bs y p := by
  unfold convGroupEdges
  exact List.mem_append_left _
    ((mem_concatMapL_iff _ _ _).mpr ⟨i, hi, mem_convChoiceEdges_first cs y _ i⟩)

theorem mem_convGroupEdges_choice_second (cs bs : List GraphNode) (y : ℚ)
    (p : Nat × List Nat) (i : Nat) (hi : i ∈ p.2) :
    ({ id := ("edge/") ++ (cs.getD i {}).id ++ ("/choice->mid-baseline")
       direction := EdgeDirection.Down
       x := (cs.getD i {}).offset.x + (cs.getD i {}).boundary.axisX
       y := (cs.getD i {}).offset.y + (cs.getD i {}).boundary.height
       length := if 1 < p.2.length then ElementIntervalY / 2
         else ElementIntervalY } : Edge) ∈ convGroupEdges cs bs y p := by
  unfold convGroupEdges
  refine List.mem_append_left _
    ((mem_concatMapL_iff _ _ _).mpr ⟨i, hi, ?_⟩)
  have h := mem_convChoiceEdges_second cs y (decide (1 < p.2.length)) i
  simpa using h

theorem mem_convGroupEdges_up (cs bs : List GraphNode) (y : ℚ)
    (p : Nat × List Nat) (hp : 1 < p.2.length) :
    ({ id := ("edge/") ++ (bs.getD p.1 {}).id ++ ("/mid-baseline->case")
       direction := EdgeDirection.Up
       x := (bs.getD p.1 {}).offset.x + (bs.getD p.1 {}).boundary.axisX
       y := (bs.getD p.1 {}).offset.y
       length := BranchIntervalY } : Edge) ∈ convGroupEdges cs bs y p := by
  unfold convGroupEdges
  refine List.mem_append_right _ ?_
  simp [hp]

theorem mem_convGroupEdges_midbaseline (cs bs : List GraphNode) (y : ℚ)
    (p : Nat × List Nat) (hp : 1 < p.2.length) :
    ({ id := ("edge/") ++ (bs.getD p.1 {}).id ++ ("/converged/mid-baseline")
       direction := EdgeDirection.Right
       x := (cs.getD (p.2.headD 0) {}).offset.x +
         (cs.getD (p.2.headD 0) {}).boundary.axisX
       y := (cs.getD (p.2.headD 0) {}).offset.y +
         (cs.getD (p.2.headD 0) {}).boundary.height + ElementIntervalY / 2
       length := (cs.getD (p.2.getLast?.getD 0) {}).offset.x +
         (cs.getD (p.2.getLast?.getD 0) {}).boundary.axisX -
         ((cs.getD (p.2.headD 0) {}).offset.x +
           (cs.getD (p.2.headD 0) {}).boundary.axisX) } : Edge) ∈
      convGroupEdges cs bs y p := by
  unfold convGroupEdges
  refine List.mem_append_right _ ?_
  simp [hp]

theorem concatMapL_choice_filter_up (cs : List GraphNode) (y : ℚ) (conv : Bool) :
    ∀ idxs : List Nat,
      (concatMapL (convChoiceEdges cs y conv) idxs).filter
        (fun e => e.direction == EdgeDirection.Up) = [] := by
  intro idxs
  induction idxs with
  | nil => rfl
  | cons i rest ih =>
    simp only [concatMapL, List.filter_append, ih, List.append_nil]
    simp [convChoiceEdges, List.filter_cons]

theorem convGroupEdges_filter_up_length (cs bs : List GraphNode) (y : ℚ)
    (p : Nat × List Nat) :
    ((convGroupEdges cs bs y p).filter
        (fun e => e.direction == EdgeDirection.Up)).length =
      (if 1 < p.2.length then 1 else 0) := by
  unfold convGroupEdges
  rw [List.filter_append, concatMapL_choice_filter_up]
  by_cases hp : 1 < p.2.length
  · simp [hp, List.filter_cons]
  · simp [hp]

theorem concatMapL_groups_filter_up_length (cs bs : List GraphNode) (y : ℚ) :
    ∀ reach : List (Nat × List Nat),
      ((concatMapL (convGroupEdges cs bs y) reach).filter
          (fun e => e.direction == EdgeDirection.Up)).length =
        (reach.filter (fun p => 1 < p.2.length)).length := by
  intro reach
  induction reach with
  | nil => rfl
  | cons p rest ih =>
    simp only [concatMapL, List.filter_append, List.length_append, ih,
      convGroupEdges_filter_up_length, List.filter_cons]
    by_cases hp : 1 < p.2.length
    · simp [hp, Nat.add_comm]
    · simp [hp]

/-- C5: in the convergence-aware layout, for every choice of every reachable
group a `Down` edge runs from the baseline to the choice's top center with
length one branch interval, and a `Down` edge from the choice's bottom center
with length half the element gap when the group has more than one choice and
the full element gap otherwise; exactly for each group with more than one
choice an `Up` edge of one branch-interval length from the branch's top
center and a `Right` mid-baseline edge spanning the group's first to last
choice centers are emitted; and every choice index belongs to some reachable
group. -/
theorem choice_convergence_edge_geometry (q : GraphNode) (cs bs : List GraphNode)
    (ht : q.data.qtype = some ("choice")) (hm : convergenceMap cs bs ≠ []) :
    let r := (questionLayouterSt (some q) cs bs).layout
    let q' := r.nodeMap.questionNode.getD {}
    let cs' := r.nodeMap.choiceNodes
    let bs' := r.nodeMap.branchNodes
    let baseY := q'.offset.y + q'.boundary.height + BranchIntervalY
    (∀ p ∈ reachableConnections cs bs, ∀ i ∈ p.2,
      ({ id := ("edge/") ++ (cs'.getD i {}).id ++ ("/baseline->choice")
         direction := EdgeDirection.Down
         x := (cs'.getD i {}).offset.x + (cs'.getD i {}).boundary.axisX
         y := baseY
         length := BranchIntervalY } : Edge) ∈ r.edges ∧
      ({ id := ("edge/") ++ (cs'.getD i {}).id ++ ("/choice->mid-baseline")
         direction := EdgeDirection.Down
         x := (cs'.getD i {}).offset.x + (cs'.getD i {}).boundary.axisX
         y := (cs'.getD i {}).offset.y + (cs'.getD i {}).boundary.height
         length := if 1 < p.2.length then ElementIntervalY / 2
           else ElementIntervalY } : Edge) ∈ r.edges) ∧
    (∀ p ∈ reachableConnections cs bs, 1 < p.2.length →
      ({ id := ("edge/") ++ (bs'.getD p.1 {}).id ++ ("/mid-baseline->case")
         direction := EdgeDirection.Up
         x := (bs'.getD p.1 {}).offset.x + (bs'.getD p.1 {}).boundary.axisX
         y := (bs'.getD p.1 {}).offset.y
         length := BranchIntervalY } : Edge) ∈ r.edges ∧
      ({ id := ("edge/") ++ (bs'.getD p.1 {}).id ++ ("/converged/mid-baseline")
         direction := EdgeDirection.Right
         x := (cs'.getD (p.2.headD 0) {}).offset.x +
           (cs'.getD (p.2.headD 0) {}).boundary.axisX
         y := (cs'.getD (p.2.headD 0) {}).offset.y +
           (cs'.getD (p.2.headD 0) {}).boundary.height + ElementIntervalY / 2
         length := (cs'.getD (p.2.getLast?.getD 0) {}).offset.x +
           (cs'.getD (p.2.getLast?.getD 0) {}).boundary.axisX -
           ((cs'.getD (p.2.headD 0) {}).offset.x +
             (cs'.getD (p.2.headD 0) {}).boundary.axisX) } : Edge) ∈ r.edges) ∧
    ((r.edges.filter (fun e => e.direction == EdgeDirection.Up)).length =
      ((reachableConnections cs bs).filter (fun p => 1 < p.2.length)).length) ∧
    (∀ i, i < cs.length → ∃ p ∈ reachableConnections cs bs, i ∈ p.2) := by
  have e1 : (q.data.qtype == some ("choice")) = true := by rw [ht]; rfl
  have hbs' : bs.isEmpty = false := by
    cases bs with
    | nil => exact absurd (convergenceMap_nil_branches cs) hm
    | cons b rest => rfl
  have hm' : (convergenceMap cs bs).isEmpty = false := by
    cases hmm : convergenceMap cs bs with
    | nil => exact absurd hmm hm
    | cons a l => rfl
  simp only [questionLayouterSt, e1, if_true,
    questionLayouterBranchingWithConvergenceSt, hbs', hm', Bool.false_eq_true,
    if_false, Option.getD_some, convEdges]
  refine ⟨?_, ?_, ?_, ?_⟩
  · intro p hp i hi
    constructor
    · exact List.mem_cons_of_mem _ (List.mem_cons_of_mem _
        ((mem_concatMapL_iff _ _ _).mpr
          ⟨p, hp, mem_convGroupEdges_choice_first _ _ _ p i hi⟩))
    · exact List.mem_cons_of_mem _ (List.mem_cons_of_mem _
        ((mem_concatMapL_iff _ _ _).mpr
          ⟨p, hp, mem_convGroupEdges_choice_second _ _ _ p i hi⟩))
  · intro p hp hconv
    constructor
    · exact List.mem_cons_of_mem _ (List.mem_cons_of_mem _
        ((mem_concatMapL_iff _ _ _).mpr
          ⟨p, hp, mem_convGroupEdges_up _ _ _ p hconv⟩))
    · exact List.mem_cons_of_mem _ (List.mem_cons_of_mem _
        ((mem_concatMapL_iff _ _ _).mpr
          ⟨p, hp, mem_convGroupEdges_midbaseline _ _ _ p hconv⟩))
  · rw [List.filter_cons, List.filter_cons]
    simp only [show ((EdgeDirection.Down == EdgeDirection.Up) = false) from rfl,
      show ((EdgeDirection.Right == EdgeDirection.Up) = false) from rfl,
      Bool.false_eq_true, if_false]
    exact concatMapL_groups_filter_up_length _ _ _ _
  · exact fun i hi => choice_in_some_group cs bs i hi

theorem choice_convergence_edge_geometry_witness :
    (let r := (questionLayouterSt (some (sampleQuestion ("choice")))
        exampleChoices exampleBranches).layout
     let q' := r.nodeMap.questionNode.getD {}
     let cs' := r.nodeMap.choiceNodes
     let bs' := r.nodeMap.branchNodes
     let baseY := q'.offset.y + q'.boundary.height + BranchIntervalY
     (∀ p ∈ reachableConnections exampleChoices exampleBranches, ∀ i ∈ p.2,
       ({ id := ("edge/") ++ (cs'.getD i {}).id ++ ("/baseline->choice")
          direction := EdgeDirection.Down
          x := (cs'.getD i {}).offset.x + (cs'.getD i {}).boundary.axisX
          y := baseY
          length := BranchIntervalY } : Edge) ∈ r.edges ∧
       ({ id := ("edge/") ++ (cs'.getD i {}).id ++ ("/choice->mid-baseline")
          direction := EdgeDirection.Down
          x := (cs'.getD i {}).offset.x + (cs'.getD i {}).boundary.axisX
          y := (cs'.getD i {}).offset.y + (cs'.getD i {}).boundary.height
          length := if 1 < p.2.length then ElementIntervalY / 2
            else ElementIntervalY } : Edge) ∈ r.edges) ∧
     (∀ p ∈ reachableConnections exampleChoices exampleBranches, 1 < p.2.length →
       ({ id := ("edge/") ++ (bs'.getD p.1 {}).id ++ ("/mid-baseline->case")
          direction := EdgeDirection.Up
          x := (bs'.getD p.1 {}).offset.x + (bs'.getD p.1 {}).boundary.axisX
          y := (bs'.getD p.1 {}).offset.y
          length := BranchIntervalY } : Edge) ∈ r.edges ∧
       ({ id := ("edge/") ++ (bs'.getD p.1 {}).id ++ ("/converged/mid-baseline")
          direction := EdgeDirection.Right
          x := (cs'.getD (p.2.headD 0) {}).offset.x +
            (cs'.getD (p.2.headD 0) {}).boundary.axisX
          y := (cs'.getD (p.2.headD 0) {}).offset.y +
            (cs'.getD (p.2.headD 0) {}).boundary.height + ElementIntervalY / 2
          length := (cs'.getD (p.2.getLast?.getD 0) {}).offset.x +
            (cs'.getD (p.2.getLast?.getD 0) {}).boundary.axisX -
            ((cs'.getD (p.2.headD 0) {}).offset.x +
              (cs'.getD (p.2.headD 0) {}).boundary.axisX) } : Edge) ∈ r.edges) ∧
     ((r.edges.filter (fun e => e.direction == EdgeDirection.Up)).length =
       ((reachableConnections exampleChoices exampleBranches).filter
         (fun p => 1 < p.2.length)).length) ∧
     (∀ i, i < exampleChoices.length →
       ∃ p ∈ reachableConnections exampleChoices exampleBranches, i ∈ p.2)) :=
  choice_convergence_edge_geometry _ _ _ rfl (by decide)

section
attribute [local semireducible] Rat.sub Rat.add Rat.mul Rat.inv

/-- C8 counterexample: two runs whose inputs differ only in a branch node's
prior `offset` (the second branch, which is beyond the paired prefix and so
is never repositioned) produce different edge lists, refuting the claim that
prior offsets cannot affect the computed result because composition
overwrites all offsets. -/
theorem prior_offset_affects_edges_counterexample :
    (questionLayouter (some (sampleQuestion ("confirm"))) [sampleChoice ("A")]
        [sampleBranch ("B"), sampleBranchAt ("C") 1000]).edges ≠
      (questionLayouter (some (sampleQuestion ("confirm"))) [sampleChoice ("A")]
        [sampleBranch ("B"), sampleBranchAt ("C") 2000]).edges := by
  decide

end

theorem applyOne_data (asg : List (NodeRef × Pt)) (r : NodeRef) (n : GraphNode) :
    (applyOne asg r n).data = n.data := by
  unfold applyOne
  cases findPos asg r <;> rfl

theorem applyOne_boundary (asg : List (NodeRef × Pt)) (r : NodeRef)
    (n : GraphNode) : (applyOne asg r n).boundary = n.boundary := by
  unfold applyOne
  cases findPos asg r <;> rfl

theorem applyOne_idem (asg : List (NodeRef × Pt)) (r : NodeRef) (n : GraphNode) :
    applyOne asg r (applyOne asg r n) = applyOne asg r n := by
  unfold applyOne
  cases findPos asg r <;> rfl

theorem applyIdx_datas (asg : List (NodeRef × Pt)) (mk : Nat → NodeRef) :
    ∀ (l : List GraphNode) (j : Nat), datas (applyIdx asg mk j l) = datas l := by
  intro l
  induction l with
  | nil => intro j; rfl
  | cons n rest ih =>
    intro j
    simp only [applyIdx, datas, List.map_cons, applyOne_data]
    have := ih (j + 1)
    simp only [datas] at this
    rw [this]

theorem applyIdx_bndrys (asg : List (NodeRef × Pt)) (mk : Nat → NodeRef) :
    ∀ (l : List GraphNode) (j : Nat), bndrys (applyIdx asg mk j l) = bndrys l := by
  intro l
  induction l with
  | nil => intro j; rfl
  | cons n rest ih =>
    intro j
    simp only [applyIdx, bndrys, List.map_cons, applyOne_boundary]
    have := ih (j + 1)
    simp only [bndrys] at this
    rw [this]

theorem applyIdx_idem (asg : List (NodeRef × Pt)) (mk : Nat → NodeRef) :
    ∀ (l : List GraphNode) (j : Nat),
      applyIdx asg mk j (applyIdx asg mk j l) = applyIdx asg mk j l := by
  intro l
  induction l with
  | nil => intro j; rfl
  | cons n rest ih =>
    intro j
    simp only [applyIdx, applyOne_idem]
    rw [ih (j + 1)]

theorem markHiddenGo_datas (p : Nat → Bool) :
    ∀ (l : List GraphNode) (j : Nat), datas (markHiddenGo p j l) = datas l := by
  intro l
  induction l with
  | nil => intro j; rfl
  | cons b rest ih =>
    intro j
    simp only [markHiddenGo, datas, List.map_cons]
    have := ih (j + 1)
    simp only [datas] at this
    rw [this]
    by_cases hp : p j
    · rw [if_pos hp]
    · rw [if_neg hp]

theorem markHiddenGo_bndrys (p : Nat → Bool) :
    ∀ (l : List GraphNode) (j : Nat), bndrys (markHiddenGo p j l) = bndrys l := by
  intro l
  induction l with
  | nil => intro j; rfl
  | cons b rest ih =>
    intro j
    simp only [markHiddenGo, bndrys, List.map_cons]
    have := ih (j + 1)
    simp only [bndrys] at this
    rw [this]
    by_cases hp : p j
    · rw [if_pos hp]
    · rw [if_neg hp]

theorem datas_length {l l' : List GraphNode} (h : datas l = datas l') :
    l.length = l'.length := by
  have := congrArg List.length h
  simpa [datas] using this

theorem findChoiceIdx_congr (g : String) :
    ∀ (l l' : List GraphNode), datas l = datas l' →
      ∀ j, findChoiceIdx g j l = findChoiceIdx g j l' := by
  intro l
  induction l with
  | nil =>
    intro l' h j
    cases l' with
    | nil => rfl
    | cons n' rest' => simp [datas] at h
  | cons n rest ih =>
    intro l' h j
    cases l' with
    | nil => simp [datas] at h
    | cons n' rest' =>
      simp only [datas, List.map_cons, List.cons.injEq] at h
      unfold findChoiceIdx
      rw [h.1]
      by_cases hc : n'.data.choiceId == some (g)
      · rw [if_pos hc, if_pos hc]
      · rw [if_neg hc, if_neg hc]
        exact ih rest' h.2 (j + 1)

theorem convEntry_congr {c c' : GraphNode} {bs bs' : List GraphNode}
    (hc : c.data = c'.data) (hb : datas bs = datas bs') :
    convEntry bs c = convEntry bs' c' := by
  unfold convEntry
  rw [hc]
  cases hg : c'.data.gotoChoice with
  | none => rfl
  | some g =>
    simp only []
    by_cases h1 : g == ("")
    · rw [if_pos h1, if_pos h1]
    · rw [if_neg h1, if_neg h1]
      by_cases h2 : c'.data.choiceId == some (g)
      · rw [if_pos h2, if_pos h2]
      · rw [if_neg h2, if_neg h2]
        exact findChoiceIdx_congr g bs bs' hb 0

theorem convMapGo_congr {bs bs' : List GraphNode} (hb : datas bs = datas bs') :
    ∀ (cs cs' : List GraphNode), datas cs = datas cs' →
      ∀ j, convMapGo bs j cs = convMapGo bs' j cs' := by
  intro cs
  induction cs with
  | nil =>
    intro cs' h j
    cases cs' with
    | nil => rfl
    | cons c' rest' => simp [datas] at h
  | cons c rest ih =>
    intro cs' h j
    cases cs' with
    | nil => simp [datas] at h
    | cons c' rest' =>
      simp only [datas, List.map_cons, List.cons.injEq] at h
      unfold convMapGo
      rw [convEntry_congr h.1 hb]
      cases convEntry bs' c' with
      | some k => simp only []; rw [ih rest' h.2 (j + 1)]
      | none => exact ih rest' h.2 (j + 1)

theorem convergenceMap_congr {cs cs' bs bs' : List GraphNode}
    (hc : datas cs = datas cs') (hb : datas bs = datas bs') :
    convergenceMap cs bs = convergenceMap cs' bs' :=
  convMapGo_congr hb cs cs' hc 0

theorem mappedChoices_congr {cs cs' bs bs' : List GraphNode}
    (hc : datas cs = datas cs') (hb : datas bs = datas bs') (k : Nat) :
    mappedChoices cs bs k = mappedChoices cs' bs' k := by
  unfold mappedChoices
  rw [convergenceMap_congr hc hb, datas_length hc]

theorem reachableConnections_congr {cs cs' bs bs' : List GraphNode}
    (hc : datas cs = datas cs') (hb : datas bs = datas bs') :
    reachableConnections cs bs = reachableConnections cs' bs' := by
  unfold reachableConnections
  rw [datas_length hc, datas_length hb]
  have hf : (fun k => if (mappedChoices cs bs k).isEmpty then none
      else some (k, mappedChoices cs bs k)) =
      (fun k => if (mappedChoices cs' bs' k).isEmpty then none
      else some (k, mappedChoices cs' bs' k)) := by
    funext k
    rw [mappedChoices_congr hc hb]
  rw [hf]

theorem getD_boundary_congr :
    ∀ (l l' : List GraphNode), bndrys l = bndrys l' →
      ∀ i, (l.getD i {}).boundary = (l'.getD i {}).boundary := by
  intro l
  induction l with
  | nil =>
    intro l' h i
    cases l' with
    | nil => rfl
    | cons n' rest' => simp [bndrys] at h
  | cons n rest ih =>
    intro l' h i
    cases l' with
    | nil => simp [bndrys] at h
    | cons n' rest' =>
      simp only [bndrys, List.map_cons, List.cons.injEq] at h
      cases i with
      | zero => exact h.1
      | succ i' =>
        simp only [List.getD_cons_succ]
        exact ih rest' h.2 i'

theorem toCoord_congr {n n' : GraphNode} (h : n.boundary = n'.boundary)
    (r : NodeRef) : n.toCoord r = n'.toCoord r := by
  unfold GraphNode.toCoord
  rw [h]

theorem pairCoords_congr :
    ∀ (cs cs' bs bs' : List GraphNode), bndrys cs = bndrys cs' →
      bndrys bs = bndrys bs' → ∀ i, pairCoords i cs bs = pairCoords i cs' bs' := by
  intro cs
  induction cs with
  | nil =>
    intro cs' bs bs' hc hb i
    cases cs' with
    | nil => cases bs <;> cases bs' <;> rfl
    | cons c' r' => simp [bndrys] at hc
  | cons c rest ih =>
    intro cs' bs bs' hc hb i
    cases cs' with
    | nil => simp [bndrys] at hc
    | cons c' rest' =>
      simp only [bndrys, List.map_cons, List.cons.injEq] at hc
      cases bs with
      | nil =>
        cases bs' with
        | nil => rfl
        | cons b' br' => simp [bndrys] at hb
      | cons b br =>
        cases bs' with
        | nil => simp [bndrys] at hb
        | cons b' br' =>
          simp only [bndrys, List.map_cons, List.cons.injEq] at hb
          unfold pairCoords
          rw [toCoord_congr hc.1, toCoord_congr hb.1, ih rest' br br' hc.2 hb.2]

theorem groupCoord_congr {cs cs' bs bs' : List GraphNode}
    (hc : bndrys cs = bndrys cs') (hb : bndrys bs = bndrys bs')
    (k : Nat) (idxs : List Nat) :
    groupCoord cs bs k idxs = groupCoord cs' bs' k idxs := by
  unfold groupCoord
  have hm : (fun i => (cs.getD i {}).toCoord (NodeRef.choice i)) =
      (fun i => (cs'.getD i {}).toCoord (NodeRef.choice i)) := by
    funext i
    exact toCoord_congr (getD_boundary_congr cs cs' hc i) _
  rw [hm, toCoord_congr (getD_boundary_congr bs bs' hb k)]

theorem convContentRow_congr {cs cs' bs bs' : List GraphNode}
    (hcd : datas cs = datas cs') (hbd : datas bs = datas bs')
    (hcb : bndrys cs = bndrys cs') (hbb : bndrys bs = bndrys bs') :
    convContentRow cs bs = convContentRow cs' bs' := by
  unfold convContentRow
  rw [reachableConnections_congr hcd hbd]
  have hm : (fun p : Nat × List Nat => groupCoord cs bs p.1 p.2) =
      (fun p : Nat × List Nat => groupCoord cs' bs' p.1 p.2) := by
    funext p
    exact groupCoord_congr hcb hbb p.1 p.2
  rw [hm]

theorem plainContentRow_congr {cs cs' bs bs' : List GraphNode}
    (hcb : bndrys cs = bndrys cs') (hbb : bndrys bs = bndrys bs') :
    plainContentRow cs bs = plainContentRow cs' bs' := by
  unfold plainContentRow
  rw [pairCoords_congr cs cs' bs bs' hcb hbb 0]

theorem plainRootCoord_congr {q q' : GraphNode} {cs cs' bs bs' : List GraphNode}
    (hq : q.boundary = q'.boundary) (hcb : bndrys cs = bndrys cs')
    (hbb : bndrys bs = bndrys bs') :
    plainRootCoord q cs bs = plainRootCoord q' cs' bs' := by
  unfold plainRootCoord
  rw [toCoord_congr hq, plainContentRow_congr hcb hbb]

theorem convRootCoord_congr {q q' : GraphNode} {cs cs' bs bs' : List GraphNode}
    (hq : q.boundary = q'.boundary) (hcd : datas cs = datas cs')
    (hbd : datas bs = datas bs') (hcb : bndrys cs = bndrys cs')
    (hbb : bndrys bs = bndrys bs') :
    convRootCoord q cs bs = convRootCoord q' cs' bs' := by
  unfold convRootCoord
  rw [toCoord_congr hq, convContentRow_congr hcd hbd hcb hbb]

theorem markHidden_datas (cs bs : List GraphNode) :
    datas (markHidden cs bs) = datas bs := by
  unfold markHidden
  exact markHiddenGo_datas _ bs 0

theorem markHidden_bndrys (cs bs : List GraphNode) :
    bndrys (markHidden cs bs) = bndrys bs := by
  unfold markHidden
  exact markHiddenGo_bndrys _ bs 0

theorem markHiddenGo_congr {p p' : Nat → Bool} (h : ∀ i, p i = p' i) :
    ∀ (l : List GraphNode) (j : Nat), markHiddenGo p j l = markHiddenGo p' j l := by
  intro l
  induction l with
  | nil => intro j; rfl
  | cons b rest ih =>
    intro j
    unfold markHiddenGo
    rw [h j, ih (j + 1)]

theorem setHidden_of_hidden (n : GraphNode) (h : n.hidden = true) :
    ({ n with hidden := true } : GraphNode) = n := by
  rw [← h]

theorem markHiddenGo_noop (p : Nat → Bool) :
    ∀ (l : List GraphNode) (j : Nat),
      (∀ i, i < l.length → p (j + i) = true → (l.getD i {}).hidden = true) →
      markHiddenGo p j l = l := by
  intro l
  induction l with
  | nil => intro j _; rfl
  | cons b rest ih =>
    intro j h
    unfold markHiddenGo
    have htail : markHiddenGo p (j + 1) rest = rest := by
      apply ih
      intro i hi hpi
      have h2 := h (i + 1) (Nat.succ_lt_succ hi) (by
        have e : j + (i + 1) = j + 1 + i := by omega
        rw [e]; exact hpi)
      simpa using h2
    rw [htail]
    by_cases hp : p j
    · rw [if_pos hp]
      have hb : b.hidden = true := by
        have := h 0 (Nat.succ_pos rest.length) (by simpa using hp)
        simpa using this
      rw [setHidden_of_hidden b hb]
    · rw [if_neg hp]

theorem plainSt_applyPost (q : GraphNode) (cs bs : List GraphNode)
    (hbs : bs.isEmpty = false) :
    questionLayouterBranchingSt
      (applyOne (plainRootCoord q cs bs).nodes NodeRef.question q)
      (applyIdx (plainRootCoord q cs bs).nodes NodeRef.choice 0 cs)
      (applyIdx (plainRootCoord q cs bs).nodes NodeRef.branch 0 bs) =
    questionLayouterBranchingSt q cs bs := by
  have hbs2 : (applyIdx (plainRootCoord q cs bs).nodes NodeRef.branch 0
      bs).isEmpty = false := by
    cases bs with
    | nil => simp at hbs
    | cons b br => rfl
  have hroot : plainRootCoord
      (applyOne (plainRootCoord q cs bs).nodes NodeRef.question q)
      (applyIdx (plainRootCoord q cs bs).nodes NodeRef.choice 0 cs)
      (applyIdx (plainRootCoord q cs bs).nodes NodeRef.branch 0 bs) =
      plainRootCoord q cs bs :=
    plainRootCoord_congr (applyOne_boundary _ _ _)
      (applyIdx_bndrys _ _ cs 0) (applyIdx_bndrys _ _ bs 0)
  simp only [questionLayouterBranchingSt, hbs, hbs2, Bool.false_eq_true,
    if_false, hroot]
  rw [applyOne_idem, applyIdx_idem, applyIdx_idem]

theorem convSt_applyPost (q : GraphNode) (cs bs : List GraphNode)
    (hbs : bs.isEmpty = false)
    (hm : (convergenceMap cs bs).isEmpty = false) :
    questionLayouterBranchingWithConvergenceSt
      (applyOne (convRootCoord q cs bs).nodes NodeRef.question q)
      (applyIdx (convRootCoord q cs bs).nodes NodeRef.choice 0 cs)
      (applyIdx (convRootCoord q cs bs).nodes NodeRef.branch 0
        (markHidden cs bs)) =
    questionLayouterBranchingWithConvergenceSt q cs bs := by
  set A := (convRootCoord q cs bs).nodes with hA
  set cs2 := applyIdx A NodeRef.choice 0 cs with hcs2def
  set bs2 := applyIdx A NodeRef.branch 0 (markHidden cs bs) with hbs2def
  have hcd : datas cs2 = datas cs := applyIdx_datas A NodeRef.choice cs 0
  have hcb : bndrys cs2 = bndrys cs := applyIdx_bndrys A NodeRef.choice cs 0
  have hbd : datas bs2 = datas bs := by
    rw [hbs2def, applyIdx_datas, markHidden_datas]
  have hbb : bndrys bs2 = bndrys bs := by
    rw [hbs2def, applyIdx_bndrys, markHidden_bndrys]
  have hbs2 : bs2.isEmpty = false := by
    rw [hbs2def]
    cases bs with
    | nil => simp at hbs
    | cons b br => simp [markHidden, markHiddenGo, applyIdx]
  have hmap2 : convergenceMap cs2 bs2 = convergenceMap cs bs :=
    convergenceMap_congr hcd hbd
  have hm2 : (convergenceMap cs2 bs2).isEmpty = false := by rw [hmap2]; exact hm
  have hreach : reachableConnections cs2 bs2 = reachableConnections cs bs :=
    reachableConnections_congr hcd hbd
  have hroot : convRootCoord (applyOne A NodeRef.question q) cs2 bs2 =
      convRootCoord q cs bs :=
    convRootCoord_congr (applyOne_boundary _ _ _) hcd hbd hcb hbb
  have hblen : bs2.length = bs.length := datas_length hbd
  have hmarked2 : markHidden cs2 bs2 = bs2 := by
    unfold markHidden
    rw [markHiddenGo_congr
      (fun i => by rw [mappedChoices_congr hcd hbd]) bs2 0]
    apply markHiddenGo_noop
    intro i hi hp
    have hlen : i < (markHidden cs bs).length := by
      unfold markHidden
      rw [markHiddenGo_length]
      rw [hblen] at hi
      exact hi
    have hib : i < bs.length := by rw [hblen] at hi; exact hi
    rw [hbs2def, applyIdx_getD _ _ _ 0 i hlen, applyOne_hidden]
    unfold markHidden
    rw [markHiddenGo_getD _ bs 0 i hib]
    rw [if_pos hp]
  have hidem : applyIdx A NodeRef.branch 0 bs2 = bs2 := by
    rw [hbs2def]
    exact applyIdx_idem A NodeRef.branch (markHidden cs bs) 0
  have hq2 : applyOne A NodeRef.question (applyOne A NodeRef.question q) =
      applyOne A NodeRef.question q := applyOne_idem A NodeRef.question q
  have hcs2i : applyIdx A NodeRef.choice 0 cs2 = cs2 := by
    rw [hcs2def]
    exact applyIdx_idem A NodeRef.choice cs 0
  simp only [questionLayouterBranchingWithConvergenceSt, hbs, hbs2, hmap2, hm,
    hm2, Bool.false_eq_true, if_false, hroot, hreach, hmarked2, hidem, hq2,
    hcs2i]

theorem questionLayouterSt_idem (q? : Option GraphNode) (cs bs : List GraphNode) :
    questionLayouterSt (questionLayouterSt q? cs bs).question
      (questionLayouterSt q? cs bs).choices
      (questionLayouterSt q? cs bs).branches = questionLayouterSt q? cs bs := by
  cases q? with
  | none => rfl
  | some q =>
    by_cases h1 : (q.data.qtype == some ("choice")) = true
    · cases hbs : bs.isEmpty with
      | true =>
        have hr1 : questionLayouterSt (some q) cs bs = ⟨{}, some q, cs, bs⟩ := by
          simp only [questionLayouterSt, h1, if_true,
            questionLayouterBranchingWithConvergenceSt, hbs, if_true]
        rw [hr1]
        show questionLayouterSt (some q) cs bs = ⟨{}, some q, cs, bs⟩
        exact hr1
      | false =>
        by_cases hm : (convergenceMap cs bs).isEmpty = true
        · -- empty convergence map: delegation to the plain branching layouter
          have hr1 : questionLayouterSt (some q) cs bs =
              questionLayouterBranchingSt q cs bs := by
            simp only [questionLayouterSt, h1, if_true,
              questionLayouterBranchingWithConvergenceSt, hbs, hm,
              Bool.false_eq_true, if_false, if_true]
          have hrec : questionLayouterBranchingSt q cs bs =
              ⟨⟨(plainRootCoord q cs bs).boundary,
                ⟨some (applyOne (plainRootCoord q cs bs).nodes NodeRef.question q),
                 applyIdx (plainRootCoord q cs bs).nodes NodeRef.choice 0 cs,
                 applyIdx (plainRootCoord q cs bs).nodes NodeRef.branch 0 bs⟩,
                calculateEdges (plainRootCoord q cs bs).boundary
                  (applyOne (plainRootCoord q cs bs).nodes NodeRef.question q)
                  (applyIdx (plainRootCoord q cs bs).nodes NodeRef.branch 0 bs),
                []⟩,
               some (applyOne (plainRootCoord q cs bs).nodes NodeRef.question q),
               applyIdx (plainRootCoord q cs bs).nodes NodeRef.choice 0 cs,
               applyIdx (plainRootCoord q cs bs).nodes NodeRef.branch 0 bs⟩ := by
            simp only [questionLayouterBranchingSt, hbs, Bool.false_eq_true,
              if_false]
          rw [hr1, hrec]
          show questionLayouterSt
            (some (applyOne (plainRootCoord q cs bs).nodes NodeRef.question q))
            (applyIdx (plainRootCoord q cs bs).nodes NodeRef.choice 0 cs)
            (applyIdx (plainRootCoord q cs bs).nodes NodeRef.branch 0 bs) = _
          have h1' : ((applyOne (plainRootCoord q cs bs).nodes NodeRef.question
              q).data.qtype == some ("choice")) = true := by
            rw [applyOne_data]; exact h1
          simp only [questionLayouterSt, h1', if_true]
          have hbs1 : (applyIdx (plainRootCoord q cs bs).nodes NodeRef.branch 0
              bs).isEmpty = false := by
            cases bs with
            | nil => simp at hbs
            | cons b br => rfl
          have hm1 : (convergenceMap
              (applyIdx (plainRootCoord q cs bs).nodes NodeRef.choice 0 cs)
              (applyIdx (plainRootCoord q cs bs).nodes NodeRef.branch 0
                bs)).isEmpty = true := by
            rw [convergenceMap_congr
              (applyIdx_datas _ NodeRef.choice cs 0)
              (applyIdx_datas _ NodeRef.branch bs 0)]
            exact hm
          simp only [questionLayouterBranchingWithConvergenceSt, hbs1, hm1,
            Bool.false_eq_true, if_false, if_true]
          rw [← hrec]
          exact plainSt_applyPost q cs bs hbs
        · -- non-empty convergence map: the convergence path proper
          have hm' : (convergenceMap cs bs).isEmpty = false :=
            Bool.eq_false_iff.mpr hm
          have hr1 : questionLayouterSt (some q) cs bs =
              questionLayouterBranchingWithConvergenceSt q cs bs := by
            simp only [questionLayouterSt, h1, if_true]
          have hrec : questionLayouterBranchingWithConvergenceSt q cs bs =
              ⟨⟨(convRootCoord q cs bs).boundary,
                ⟨some (applyOne (convRootCoord q cs bs).nodes NodeRef.question q),
                 applyIdx (convRootCoord q cs bs).nodes NodeRef.choice 0 cs,
                 applyIdx (convRootCoord q cs bs).nodes NodeRef.branch 0
                   (markHidden cs bs)⟩,
                convEdges
                  (applyOne (convRootCoord q cs bs).nodes NodeRef.question q)
                  (applyIdx (convRootCoord q cs bs).nodes NodeRef.choice 0 cs)
                  (applyIdx (convRootCoord q cs bs).nodes NodeRef.branch 0
                    (markHidden cs bs))
                  (reachableConnections cs bs),
                []⟩,
               some (applyOne (convRootCoord q cs bs).nodes NodeRef.question q),
               applyIdx (convRootCoord q cs bs).nodes NodeRef.choice 0 cs,
               applyIdx (convRootCoord q cs bs).nodes NodeRef.branch 0
                 (markHidden cs bs)⟩ := by
            simp only [questionLayouterBranchingWithConvergenceSt, hbs, hm',
              Bool.false_eq_true, if_false]
          rw [hr1, hrec]
          show questionLayouterSt
            (some (applyOne (convRootCoord q cs bs).nodes NodeRef.question q))
            (applyIdx (convRootCoord q cs bs).nodes NodeRef.choice 0 cs)
            (applyIdx (convRootCoord q cs bs).nodes NodeRef.branch 0
              (markHidden cs bs)) = _
          have h1' : ((applyOne (convRootCoord q cs bs).nodes NodeRef.question
              q).data.qtype == some ("choice")) = true := by
            rw [applyOne_data]; exact h1
          simp only [questionLayouterSt, h1', if_true]
          rw [← hrec]
          exact convSt_applyPost q cs bs hbs hm'
    · by_cases h2 : (q.data.qtype == some ("confirm")) = true
      · -- confirm path
        have h1f : (q.data.qtype == some ("choice")) = false :=
          Bool.eq_false_iff.mpr h1
        cases hbs : bs.isEmpty with
        | true =>
          have hr1 : questionLayouterSt (some q) cs bs = ⟨{}, some q, cs, bs⟩ := by
            simp only [questionLayouterSt, h1f, h2, Bool.false_eq_true, if_false,
              if_true, questionLayouterBranchingSt, hbs, if_true]
          rw [hr1]
          show questionLayouterSt (some q) cs bs = ⟨{}, some q, cs, bs⟩
          exact hr1
        | false =>
          have hr1 : questionLayouterSt (some q) cs bs =
              questionLayouterBranchingSt q cs bs := by
            simp only [questionLayouterSt, h1f, h2, Bool.false_eq_true, if_false,
              if_true]
          have hrec : questionLayouterBranchingSt q cs bs =
              ⟨⟨(plainRootCoord q cs bs).boundary,
                ⟨some (applyOne (plainRootCoord q cs bs).nodes NodeRef.question q),
                 applyIdx (plainRootCoord q cs bs).nodes NodeRef.choice 0 cs,
                 applyIdx (plainRootCoord q cs bs).nodes NodeRef.branch 0 bs⟩,
                calculateEdges (plainRootCoord q cs bs).boundary
                  (applyOne (plainRootCoord q cs bs).nodes NodeRef.question q)
                  (applyIdx (plainRootCoord q cs bs).nodes NodeRef.branch 0 bs),
                []⟩,
               some (applyOne (plainRootCoord q cs bs).nodes NodeRef.question q),
               applyIdx (plainRootCoord q cs bs).nodes NodeRef.choice 0 cs,
               applyIdx (plainRootCoord q cs bs).nodes NodeRef.branch 0 bs⟩ := by
            simp only [questionLayouterBranchingSt, hbs, Bool.false_eq_true,
              if_false]
          rw [hr1, hrec]
          show questionLayouterSt
            (some (applyOne (plainRootCoord q cs bs).nodes NodeRef.question q))
            (applyIdx (plainRootCoord q cs bs).nodes NodeRef.choice 0 cs)
            (applyIdx (plainRootCoord q cs bs).nodes NodeRef.branch 0 bs) = _
          have h1' : ((applyOne (plainRootCoord q cs bs).nodes NodeRef.question
              q).data.qtype == some ("choice")) = false := by
            rw [applyOne_data]; exact h1f
          have h2' : ((applyOne (plainRootCoord q cs bs).nodes NodeRef.question
              q).data.qtype == some ("confirm")) = true := by
            rw [applyOne_data]; exact h2
          simp only [questionLayouterSt, h1', h2', Bool.false_eq_true, if_false,
            if_true]
          rw [← hrec]
          exact plainSt_applyPost q cs bs hbs
      · -- non-branching path
        have h1f : (q.data.qtype == some ("choice")) = false :=
          Bool.eq_false_iff.mpr h1
        have h2f : (q.data.qtype == some ("confirm")) = false :=
          Bool.eq_false_iff.mpr h2
        have hr1 : questionLayouterSt (some q) cs bs =
            ⟨⟨Boundary.mkWH 300 286, ⟨some q, [], []⟩, [], []⟩,
              some q, cs, bs⟩ := by
          simp only [questionLayouterSt, h1f, h2f, Bool.false_eq_true, if_false,
            questionLayouterNonBranchingSt]
        rw [hr1]
        show questionLayouterSt (some q) cs bs = _
        exact hr1

/-- C8 (amended): calling the layouter a second time on the node objects left
behind by a first call yields a structurally equal boundary and edge list
(indeed an identical result): the second run repositions every composed node
to the same offset and the offsets of nodes outside the composition pass
through both runs unchanged. -/
theorem questionLayouter_idempotent (q? : Option GraphNode)
    (cs bs : List GraphNode) :
    (questionLayouterSt (questionLayouterSt q? cs bs).question
        (questionLayouterSt q? cs bs).choices
        (questionLayouterSt q? cs bs).branches).layout.boundary =
      (questionLayouterSt q? cs bs).layout.boundary ∧
    (questionLayouterSt (questionLayouterSt q? cs bs).question
        (questionLayouterSt q? cs bs).choices
        (questionLayouterSt q? cs bs).branches).layout.edges =
      (questionLayouterSt q? cs bs).layout.edges := by
  rw [questionLayouterSt_idem q? cs bs]
  exact ⟨rfl, rfl⟩
